import Mathlib

/-!
# Customer importer: domain aggregation pipeline

A shallow embedding of `customerimporter/interview.go` (`ImportDomainData`),
`exporter/exporter.go` (`ExportData`, `exportCsv`) and `cmd/main.go` (`ProcessCustomerData`),
and of the library operations they call, followed by theorems about them.

Modelling conventions.

* A Go `string` is a finite sequence of bytes; a byte is a natural number (below 256).
* `uint64` values are naturals kept below `2^64` by an explicit `% 2^64` on increment;
  `int` values are integers with 64-bit two's-complement wrap on increment.
* `bufio.Scanner` over the opened file is a `LineStream`: the lines it delivers, in order,
  and the non-EOF error (if any) it reports once they are exhausted. `bufioScan` computes it
  from the bytes of the file: a line of `bufio.MaxScanTokenSize` (64 KiB) or more stops the
  scanner with `ErrTooLong`.
* A Go `map[string]uint64` is an association list with pairwise distinct keys; the order in
  which `range` enumerates it is an arbitrary permutation, supplied by a `MapOrder`.
* A nil slice is `none`, a non-nil slice is `some l`; a nil error is `none`.
* Index and slice expressions are checked: out of range is a panic.
* The file made by `os.Create` is a `FileWriter`: the bytes it has accepted and the room its
  device has left; a write that does not fit is accepted in part and returns an error.
* `csv.Writer` is its `bufio.Writer` (4096-byte buffer, sticky error) together with the
  sequence of buffered calls `csv.Writer.Write` makes for a record.
* Standard output is the sequence of bytes handed to it; logging is not modelled.
-/

namespace CustomerImporter

/-! ## Strings -/

/-- A Go string: a sequence of bytes. -/
abbrev GoString := List Nat

/-- Bytes of an ASCII literal. -/
def ascii (s : String) : GoString := s.toList.map Char.toNat

/-- The field delimiter `,`. -/
def comma : Nat := 44

/-- The address separator `@`. -/
def atSign : Nat := 64

/-- Number of values of a `uint64`. -/
def uint64Size : Nat := 2 ^ 64

/-- The function `strings.Split(s, sep)` for a one-byte separator: the fields between
consecutive separators, empty fields kept; the empty string gives one empty field. -/
def Split : GoString → Nat → List GoString
  | [], _ => [[]]
  | c :: cs, sep =>
    if c = sep then [] :: Split cs sep
    else
      match Split cs sep with
      | [] => [[c]]
      | f :: fs => (c :: f) :: fs

/-- The function `strings.IndexByte(s, c)`: index of the first `c` in `s`, or `-1`. -/
def IndexByte : GoString → Nat → Int
  | [], _ => -1
  | b :: bs, c =>
    if b = c then 0
    else if IndexByte bs c = -1 then -1 else IndexByte bs c + 1

/-- The slice expression `s[i:]`; `none` is the run-time panic for `i` out of range. -/
def sliceFrom (s : GoString) (i : Int) : Option GoString :=
  if 0 ≤ i ∧ i ≤ (s.length : Int) then some (s.drop i.toNat) else none

/-- The built-in `x < y` on strings: byte-wise lexicographic order. -/
def strLess : GoString → GoString → Bool
  | [], [] => false
  | [], _ :: _ => true
  | _ :: _, [] => false
  | a :: as, b :: bs =>
    if a < b then true else if b < a then false else strLess as bs

/-- The function `cmp.Compare(x, y)` on strings. -/
def cmpCompare (x y : GoString) : Int :=
  if strLess x y then -1 else if strLess y x then 1 else 0

/-! ## Data model -/

/-- The struct `DomainData`. -/
structure DomainData where
  Domain : GoString
  CustomerQuantity : Nat
deriving DecidableEq, Repr

/-- The struct `CustomerImporter`. -/
structure Importer where
  path : GoString
deriving DecidableEq, Repr

/-- The constructor `NewCustomerImporter`. -/
def NewCustomerImporter (filePath : GoString) : Importer := { path := filePath }

/-- What `bufio.NewScanner(file)` delivers: the lines returned by successive successful
`Scan()` calls, and the value of `Err()` after `Scan()` has returned false (`none` is a clean
end of stream). Which streams the bytes of a file give, with the scanner's token limit, is
computed by `bufioScan`. -/
structure LineStream where
  lines : List GoString
  failure : Option GoString
deriving DecidableEq, Repr

/-- The file system as seen by `os.Open`: an error, or the line stream of the file. -/
structure FileSystem where
  Open : GoString → Except GoString LineStream

/-- The errors built by `ImportDomainData`, one constructor per `fmt.Errorf` call. -/
inductive ImportError where
  | emptyPath
  | openFailed (path cause : GoString)
  | headerReadFailed (path cause : GoString)
  | emptyFile (path : GoString)
  | readFailed (path cause : GoString)
deriving DecidableEq, Repr

/-- How a call ends: it returns the pair `(data, err)`, or it panics. -/
inductive ImportOutcome where
  | returned (data : Option (List DomainData)) (err : Option ImportError)
  | panicked
deriving DecidableEq, Repr

/-- The outcome of a call together with the paths it handed to `os.Open`. -/
structure ImportResult where
  outcome : ImportOutcome
  opened : List GoString
deriving DecidableEq, Repr

/-! ## The counter map -/

/-- A `map[string]uint64`: association list, keys pairwise distinct. -/
abbrev GoMap := List (GoString × Nat)

/-- The read `m[k]`: the stored value, or the zero value when `k` is absent. -/
def mapLoad : GoMap → GoString → Nat
  | [], _ => 0
  | (k', v) :: rest, k => if k' = k then v else mapLoad rest k

/-- The assignment `m[k] = v`. -/
def mapStore : GoMap → GoString → Nat → GoMap
  | [], k, v => [(k, v)]
  | (k', v') :: rest, k, v =>
    if k' = k then (k', v) :: rest else (k', v') :: mapStore rest k v

/-- The statement `m[k]++` on a `map[string]uint64`. -/
def mapIncr (m : GoMap) (k : GoString) : GoMap :=
  mapStore m k ((mapLoad m k + 1) % uint64Size)

/-- An enumeration order for `range` over a map: some permutation of its entries. -/
structure MapOrder where
  enumerate : GoMap → GoMap
  perm : ∀ m, (enumerate m).Perm m

/-- The enumeration in insertion order. -/
def insertionOrder : MapOrder := ⟨fun m => m, fun _ => List.Perm.refl _⟩

/-- The enumeration in reverse insertion order. -/
def reverseOrder : MapOrder := ⟨fun m => m.reverse, fun m => List.reverse_perm m⟩

/-! ## The scan loop -/

/-- The increment `x++` on an `int` (64-bit, wrapping). -/
def intInc (x : Int) : Int := (x + 1 + 2 ^ 63) % 2 ^ 64 - 2 ^ 63

/-- The number of non-negative values of a 64-bit `int`. -/
def int64Half : Nat := 2 ^ 63

/-- The local variables of the scan loop. -/
structure ScanState where
  domainCounts : GoMap
  linesProcessed : Int
  validEmails : Int
  invalidEmails : Int
deriving DecidableEq, Repr

/-- The path one iteration of the loop body takes on a line. -/
inductive LineOutcome where
  | tooFewFields
  | badSeparator
  | emptyDomain
  | counted (domain : GoString)
  | panic
deriving DecidableEq, Repr

/-- The loop body of `ImportDomainData` up to the choice of branch (lines 76-95). -/
def processLine (line : GoString) : LineOutcome :=
  let fields := Split line comma
  if fields.length < 3 then .tooFewFields
  else
    match fields.get? 2 with
    | none => .panic
    | some email =>
      let atIndex := IndexByte email atSign
      if atIndex = -1 ∨ atIndex = 0 ∨ atIndex = (email.length : Int) - 1 then .badSeparator
      else
        match sliceFrom email (atIndex + 1) with
        | none => .panic
        | some domain => if domain = [] then .emptyDomain else .counted domain

/-- One iteration of the loop (lines 72-98); `none` is a panic. -/
def scanStep (st : ScanState) (line : GoString) : Option ScanState :=
  match processLine line with
  | .panic => none
  | .counted domain =>
    some { domainCounts := mapIncr st.domainCounts domain
           linesProcessed := intInc st.linesProcessed
           validEmails := intInc st.validEmails
           invalidEmails := st.invalidEmails }
  | _ =>
    some { domainCounts := st.domainCounts
           linesProcessed := intInc st.linesProcessed
           validEmails := st.validEmails
           invalidEmails := intInc st.invalidEmails }

/-- The loop `for scanner.Scan() { ... }` over the lines still to be delivered. -/
def scanLines : List GoString → ScanState → Option ScanState
  | [], st => some st
  | line :: rest, st =>
    match scanStep st line with
    | none => none
    | some st' => scanLines rest st'

/-- The state before the loop (lines 55, 67-69). -/
def initialState : ScanState :=
  { domainCounts := [], linesProcessed := 0, validEmails := 0, invalidEmails := 0 }

/-! ## The finalizer -/

/-- The function `slices.SortFunc`: the contract of the library routine is a permutation of
the input that is ascending for `cmp`; the model is the insertion sort it runs on short
slices. -/
def SortFunc {α : Type} (cmp : α → α → Int) (l : List α) : List α :=
  l.insertionSort (fun a b => cmp a b ≤ 0)

/-- The comparison closure passed to `slices.SortFunc` (lines 116-118). -/
def byDomain (l r : DomainData) : Int := cmpCompare l.Domain r.Domain

/-- The struct literal appended for one map entry (lines 109-112). -/
def toDomainData (e : GoString × Nat) : DomainData :=
  { Domain := e.1, CustomerQuantity := e.2 }

/-- The copy-out loop over `range domainCounts` (lines 107-113). -/
def copyOut (ord : MapOrder) (m : GoMap) : List DomainData :=
  (ord.enumerate m).map toDomainData

/-- Lines 106-119: copy the map out and sort by domain. -/
def finalize (ord : MapOrder) (m : GoMap) : List DomainData :=
  SortFunc byDomain (copyOut ord m)

/-! ## ImportDomainData -/

/-- The method `CustomerImporter.ImportDomainData` (lines 37-120). -/
def ImportDomainData (ord : MapOrder) (fs : FileSystem) (ci : Importer) : ImportResult :=
  if ci.path = [] then
    { outcome := .returned none (some .emptyPath), opened := [] }
  else
    match fs.Open ci.path with
    | .error e =>
      { outcome := .returned none (some (.openFailed ci.path e)), opened := [ci.path] }
    | .ok stream =>
      match stream.lines with
      | [] =>
        match stream.failure with
        | some e =>
          { outcome := .returned none (some (.headerReadFailed ci.path e)), opened := [ci.path] }
        | none =>
          { outcome := .returned none (some (.emptyFile ci.path)), opened := [ci.path] }
      | _ :: dataLines =>
        match scanLines dataLines initialState with
        | none => { outcome := .panicked, opened := [ci.path] }
        | some st =>
          match stream.failure with
          | some e =>
            { outcome := .returned none (some (.readFailed ci.path e)), opened := [ci.path] }
          | none =>
            { outcome := .returned (some (finalize ord st.domainCounts)) none,
              opened := [ci.path] }

/-- A file system holding one file. -/
def singleFile (path : GoString) (stream : LineStream) : FileSystem :=
  ⟨fun p => if p = path then .ok stream else .error (ascii "no such file or directory")⟩

/-! ## Auxiliary definitions used in the statements -/

/-- The domain a line contributes to the counter map, if it reaches line 97. -/
def lineDomain (line : GoString) : Option GoString :=
  match processLine line with
  | .counted d => some d
  | _ => none

/-- The domains counted by the loop, one per valid line, in input order. -/
def extractedDomains (lines : List GoString) : List GoString :=
  lines.filterMap lineDomain

/-- The keys of a map, in storage order. -/
def mapKeys (m : GoMap) : List GoString := m.map Prod.fst

/-- The counter map after the loop has consumed the given data lines. -/
def scannedCounts (dataLines : List GoString) : GoMap :=
  (extractedDomains dataLines).foldl mapIncr []

/-- The number of data lines that are valid records bearing domain `d`. -/
def validCount (dataLines : List GoString) (d : GoString) : Nat :=
  dataLines.countP (fun line => decide (processLine line = .counted d))

/-- Lines 85-95 of the loop body, as a function of the email field alone. -/
def emailOutcome (email : GoString) : LineOutcome :=
  let atIndex := IndexByte email atSign
  if atIndex = -1 ∨ atIndex = 0 ∨ atIndex = (email.length : Int) - 1 then .badSeparator
  else
    match sliceFrom email (atIndex + 1) with
    | none => .panic
    | some domain => if domain = [] then .emptyDomain else .counted domain

/-- A record rejected by the tests on lines 77 and 86, described on the line itself: fewer
than three comma-separated fields, or a third field that has no `@`, or starts with `@`, or
whose first `@` is its last byte. -/
def MalformedRecord (line : GoString) : Prop :=
  (Split line comma).length < 3 ∨
    ∃ email : GoString, (Split line comma).get? 2 = some email ∧
      (atSign ∉ email ∨ email.head? = some atSign ∨
        ∃ l : GoString, email = l ++ [atSign] ∧ atSign ∉ l)

/-- The path used in the examples. -/
def csvPath : GoString := ascii "customers.csv"

/-- The header line used in the examples. -/
def headerLine : GoString := ascii "id,name,email"

/-- The data lines of end-to-end scenario A. -/
def scenarioA : List GoString :=
  [ascii "1,Foo,a@example.com", ascii "2,Bar,b@example.com", ascii "3,Baz,c@other.com"]

/-- The malformed rows of end-to-end scenario B. -/
def scenarioBad : List GoString :=
  [ascii "4,Bad,noatsign", ascii "5,Bad2,@nolocal.com", ascii "6,Bad3,trailing@"]

/-- A file system whose only file is `csvPath`, delivering the given lines and then
ending as `failure` says. -/
def csvFile (lines : List GoString) (failure : Option GoString) : FileSystem :=
  singleFile csvPath ⟨lines, failure⟩

/-- The importer built for `csvPath`. -/
def csvImporter : Importer := NewCustomerImporter csvPath

/-- Reference definition of a valid record, in the words of the specification: the line has
a third comma-separated field of the form `l ++ "@" ++ d` with `l` non-empty and free of
`@`, and `d` non-empty. -/
def ValidRecord (line d : GoString) : Prop :=
  3 ≤ (Split line comma).length ∧
    ∃ l : GoString, (Split line comma).get? 2 = some (l ++ atSign :: d) ∧
      l ≠ [] ∧ atSign ∉ l ∧ d ≠ []

/-! ## Decimal rendering -/

/-- The line terminator `\n`. -/
def newline : Nat := 10

/-- The byte `\r`. -/
def carriageReturn : Nat := 13

/-- The byte `"`. -/
def doubleQuote : Nat := 34

/-- Digit loop of the decimal rendering: the digits of `n` put in front of `acc`; the first
argument bounds the number of digits and `n + 1` is always enough. -/
def formatDigits : Nat → Nat → GoString → GoString
  | 0, _, acc => acc
  | fuel + 1, n, acc =>
    if n < 10 then (48 + n) :: acc
    else formatDigits fuel (n / 10) ((48 + n % 10) :: acc)

/-- The function `strconv.FormatUint(v, 10)`, which is also how `fmt` renders a `uint64`
under the verb `%v`: decimal digits, no sign, no leading zero. -/
def FormatUint (v : Nat) : GoString := formatDigits (v + 1) v []

/-- Reading of a run of decimal digits, most significant first. -/
def parseDigits : GoString → Nat → Option Nat
  | [], acc => some acc
  | c :: cs, acc => if 48 ≤ c ∧ c ≤ 57 then parseDigits cs (10 * acc + (c - 48)) else none

/-- Reference reader for a count: a non-empty run of decimal digits. -/
def parseUint (s : GoString) : Option Nat :=
  if s = [] then none else parseDigits s 0

/-- Reference reader for one terminal line without its newline: split on `,`, exactly two
fields, the second a decimal count. -/
def parseTerminalLine (line : GoString) : Option DomainData :=
  match Split line comma with
  | [d, c] => (parseUint c).map (fun q => { Domain := d, CustomerQuantity := q })
  | _ => none

/-! ## The output file and the buffered CSV writer -/

/-- The error a full device reports. -/
def noSpace : GoString := ascii "no space left on device"

/-- The file returned by `os.Create`, as an `io.Writer`: the bytes it has accepted and the
number of further bytes the device accepts (`none`: no limit). -/
structure FileWriter where
  content : GoString
  room : Option Nat
deriving DecidableEq, Repr

/-- The calls `Write(p)` and `WriteString(p)` on the file: the number of bytes accepted, the
error, and the file afterwards. All of `p` is accepted when it fits; otherwise the part that
fits is accepted and an error is returned. -/
def FileWriter.Write (f : FileWriter) (p : GoString) : Nat × Option GoString × FileWriter :=
  match f.room with
  | none => (p.length, none, { content := f.content ++ p, room := none })
  | some k =>
    if p.length ≤ k then
      (p.length, none, { content := f.content ++ p, room := some (k - p.length) })
    else (k, some noSpace, { content := f.content ++ p.take k, room := some 0 })

/-- The buffer size of `bufio.NewWriter`. -/
def defaultBufSize : Nat := 4096

/-- The state of a `bufio.Writer`: the pending bytes `buf[0:n]`, the sticky error, and the
underlying writer. -/
structure BufWriter where
  buf : GoString
  err : Option GoString
  wr : FileWriter
deriving DecidableEq, Repr

/-- The method `Available`. -/
def BufWriter.Available (b : BufWriter) : Nat := defaultBufSize - b.buf.length

/-- The method `bufio.Writer.Flush`; the error it returns is the `err` of the result. -/
def BufWriter.Flush (b : BufWriter) : BufWriter :=
  match b.err with
  | some _ => b
  | none =>
    if b.buf = [] then b
    else
      match b.wr.Write b.buf with
      | (_, none, wr) => { buf := [], err := none, wr := wr }
      | (n, some e, wr) => { buf := b.buf.drop n, err := some e, wr := wr }

/-- The method `bufio.Writer.WriteByte`; the error it returns is the `err` of the result. -/
def BufWriter.WriteByte (b : BufWriter) (c : Nat) : BufWriter :=
  match b.err with
  | some _ => b
  | none =>
    let b1 := if b.Available ≤ 0 then b.Flush else b
    match b1.err with
    | some _ => b1
    | none => { b1 with buf := b1.buf ++ [c] }

/-- One guarded pass of the loop of `bufio.Writer.WriteString` on the rest `s` of the string:
with an empty buffer the rest is forwarded to the file (which has `WriteString`), otherwise
the buffer is filled and flushed. -/
def BufWriter.writePass (st : BufWriter × GoString) : BufWriter × GoString :=
  let b := st.1
  let s := st.2
  if b.Available < s.length ∧ b.err = none then
    if b.buf = [] then
      match b.wr.Write s with
      | (n, e, wr) => ({ buf := [], err := e, wr := wr }, s.drop n)
    else
      (BufWriter.Flush { b with buf := b.buf ++ s.take b.Available }, s.drop b.Available)
  else st

/-- The method `bufio.Writer.WriteString`; the error it returns is the `err` of the result.
The loop body runs at most twice (fill and flush, then forward the rest), so two guarded
passes are the whole loop. -/
def BufWriter.WriteString (b : BufWriter) (s : GoString) : BufWriter :=
  let st := BufWriter.writePass (BufWriter.writePass (b, s))
  match st.1.err with
  | some _ => st.1
  | none => { st.1 with buf := st.1.buf ++ st.2 }

/-- A call made by `csv.Writer.Write` on its `bufio.Writer`. -/
inductive BufOp where
  | str (s : GoString)
  | byte (c : Nat)
deriving DecidableEq, Repr

/-- Effect of one call on the buffered writer. -/
def BufWriter.apply (b : BufWriter) : BufOp → BufWriter
  | .str s => b.WriteString s
  | .byte c => b.WriteByte c

/-- Whether the first rune of the field satisfies `unicode.IsSpace`, read off the UTF-8
bytes: tab to carriage return, space, U+0085, U+00A0, U+1680, U+2000 to U+200A, U+2028,
U+2029, U+202F, U+205F, U+3000. -/
def leadingSpace : GoString → Bool
  | [] => false
  | c :: rest =>
    if (9 ≤ c ∧ c ≤ 13) ∨ c = 32 then true
    else
      match rest with
      | d :: e :: _ =>
        if c = 194 then decide (d = 133 ∨ d = 160)
        else if c = 225 then decide (d = 154 ∧ e = 128)
        else if c = 226 then
          decide ((d = 128 ∧ ((128 ≤ e ∧ e ≤ 138) ∨ e = 168 ∨ e = 169 ∨ e = 175)) ∨
            (d = 129 ∧ e = 159))
        else if c = 227 then decide (d = 128 ∧ e = 128)
        else false
      | d :: _ => if c = 194 then decide (d = 133 ∨ d = 160) else false
      | [] => false

/-- The method `csv.Writer.fieldNeedsQuotes` for the comma delimiter. -/
def fieldNeedsQuotes (field : GoString) : Bool :=
  if field = [] then false
  else if field = [92, 46] then true
  else if field.any (fun c => decide (c = newline ∨ c = carriageReturn ∨ c = doubleQuote ∨
      c = comma)) then true
  else leadingSpace field

/-- The calls made for the inside of a quoted field: each run free of `"`, `\r`, `\n` is
written as a string, a `"` is doubled, `\r` and `\n` are written as bytes. `run` is the run
collected so far. A `WriteString` of an empty run changes nothing. -/
def quotedOps (run : GoString) : GoString → List BufOp
  | [] => [.str run]
  | c :: rest =>
    if c = doubleQuote then .str run :: .str [doubleQuote, doubleQuote] :: quotedOps [] rest
    else if c = carriageReturn then .str run :: .byte carriageReturn :: quotedOps [] rest
    else if c = newline then .str run :: .byte newline :: quotedOps [] rest
    else quotedOps (run ++ [c]) rest

/-- The calls made for one field. -/
def fieldOps (field : GoString) : List BufOp :=
  if fieldNeedsQuotes field then
    .byte doubleQuote :: (quotedOps [] field ++ [.byte doubleQuote])
  else [.str field]

/-- The calls made for the fields of a record; `first` tells whether no field was written
yet (no comma in front of the first one). -/
def recordOps (first : Bool) : List GoString → List BufOp
  | [] => []
  | field :: rest =>
    (if first then [] else [BufOp.byte comma]) ++ fieldOps field ++ recordOps false rest

/-- The method `csv.Writer.Write(record)` with the default comma and `UseCRLF` false; the
error it returns is the `err` of the result (after a failed call the remaining ones change
nothing and return the same error). -/
def csvWrite (w : BufWriter) (record : List GoString) : BufWriter :=
  (recordOps true record ++ [BufOp.byte newline]).foldl BufWriter.apply w

/-! ## The exporter -/

/-- The struct `CustomerExporter`. -/
structure Exporter where
  outputPath : GoString
deriving DecidableEq, Repr

/-- The constructor `NewCustomerExporter`. -/
def NewCustomerExporter (outputPath : GoString) : Exporter := { outputPath := outputPath }

/-- What a call of `exportCsv` leaves behind: the error it returns, the value of
`csvWriter.Error()` seen (and only logged) by the deferred function, and the output. -/
structure ExportCsvResult where
  ret : Option GoString
  flushErr : Option GoString
  output : FileWriter
deriving DecidableEq, Repr

/-- The deferred function of `exportCsv` (lines 51-56), run after the returned value `ret`
is fixed: flush, read `Error()`, log. -/
def exportCsvDeferred (ret : Option GoString) (w : BufWriter) : ExportCsvResult :=
  { ret := ret, flushErr := (w.Flush).err, output := (w.Flush).wr }

/-- The loop over `data` of `exportCsv` (lines 63-69): stops at the first failed `Write`. -/
def writeRows : List DomainData → BufWriter → BufWriter
  | [], w => w
  | v :: rest, w =>
    match (csvWrite w [v.Domain, FormatUint v.CustomerQuantity]).err with
    | some _ => csvWrite w [v.Domain, FormatUint v.CustomerQuantity]
    | none => writeRows rest (csvWrite w [v.Domain, FormatUint v.CustomerQuantity])

/-- The function `exportCsv` (lines 48-72). -/
def exportCsv (data : List DomainData) (output : FileWriter) : ExportCsvResult :=
  let w1 := csvWrite { buf := [], err := none, wr := output }
    [ascii "domain", ascii "number_of_customers"]
  match w1.err with
  | some e => exportCsvDeferred (some e) w1
  | none => exportCsvDeferred (writeRows data w1).err (writeRows data w1)

/-- The errors returned by `ExportData`. -/
inductive ExportError where
  | nilData
  | createFailed (cause : GoString)
  | csvFailed (cause : GoString)
deriving DecidableEq, Repr

/-- What a call of `ExportData` leaves behind: the error it returns and the files it
created, with their final content. -/
structure ExportResult where
  err : Option ExportError
  created : List (GoString × GoString)
deriving DecidableEq, Repr

/-- The method `CustomerExporter.ExportData` (lines 25-45). `create` is `os.Create`: an
error, or a fresh empty file with the room its device has. -/
def ExportData (create : GoString → Except GoString (Option Nat)) (ex : Exporter)
    (data : Option (List DomainData)) : ExportResult :=
  match data with
  | none => { err := some .nilData, created := [] }
  | some l =>
    match create ex.outputPath with
    | .error e => { err := some (.createFailed e), created := [] }
    | .ok room =>
      match (exportCsv l { content := [], room := room }).ret with
      | some e =>
        { err := some (.csvFailed e)
          created := [(ex.outputPath, (exportCsv l { content := [], room := room }).output.content)] }
      | none =>
        { err := none
          created := [(ex.outputPath, (exportCsv l { content := [], room := room }).output.content)] }

/-! ## ProcessCustomerData -/

/-- The environment of a run: the input file system and `os.Create`. -/
structure World where
  input : FileSystem
  Create : GoString → Except GoString (Option Nat)

/-- The errors returned by `ProcessCustomerData`. -/
inductive ProcessError where
  | importFailed (inputPath : GoString) (cause : ImportError)
  | exportFailed (outputPath : GoString) (cause : ExportError)
deriving DecidableEq, Repr

/-- How a call of `ProcessCustomerData` ends. -/
inductive ProcessOutcome where
  | returned (err : Option ProcessError)
  | panicked
deriving DecidableEq, Repr

/-- What a call of `ProcessCustomerData` leaves behind: how it ended, the bytes it handed to
standard output, the files it created, and the paths it opened for reading. -/
structure ProcessResult where
  outcome : ProcessOutcome
  stdout : GoString
  created : List (GoString × GoString)
  opened : List GoString
deriving DecidableEq, Repr

/-- The call `fmt.Println(s)` on the terminal contents `out`. -/
def Println (out s : GoString) : GoString := out ++ s ++ [newline]

/-- The call `fmt.Printf("%s,%v\n", v.Domain, v.CustomerQuantity)` on the terminal contents
`out`. -/
def PrintfEntry (out : GoString) (v : DomainData) : GoString :=
  out ++ v.Domain ++ [comma] ++ FormatUint v.CustomerQuantity ++ [newline]

/-- The function `ProcessCustomerData` (lines 12-33). Ranging over a nil slice runs the loop
body zero times. -/
def ProcessCustomerData (ord : MapOrder) (w : World) (inputPath outputPath : GoString) :
    ProcessResult :=
  match (ImportDomainData ord w.input (NewCustomerImporter inputPath)).outcome with
  | .panicked =>
    { outcome := .panicked, stdout := [], created := []
      opened := (ImportDomainData ord w.input (NewCustomerImporter inputPath)).opened }
  | .returned _ (some e) =>
    { outcome := .returned (some (.importFailed inputPath e)), stdout := [], created := []
      opened := (ImportDomainData ord w.input (NewCustomerImporter inputPath)).opened }
  | .returned data none =>
    if outputPath = [] then
      { outcome := .returned none
        stdout := (data.getD []).foldl PrintfEntry (Println [] (ascii "domain,number_of_customers"))
        created := []
        opened := (ImportDomainData ord w.input (NewCustomerImporter inputPath)).opened }
    else
      match (ExportData w.Create (NewCustomerExporter outputPath) data).err with
      | some e =>
        { outcome := .returned (some (.exportFailed outputPath e)), stdout := []
          created := (ExportData w.Create (NewCustomerExporter outputPath) data).created
          opened := (ImportDomainData ord w.input (NewCustomerImporter inputPath)).opened }
      | none =>
        { outcome := .returned none, stdout := []
          created := (ExportData w.Create (NewCustomerExporter outputPath) data).created
          opened := (ImportDomainData ord w.input (NewCustomerImporter inputPath)).opened }

/-! ## Reference definitions for sharded counting -/

/-- The addition `x + y` of two `uint64` values. -/
def uint64Add (x y : Nat) : Nat := (x + y) % uint64Size

/-- Reference definition of the merge step of the specification (section 5): the entries of
a shard result are added, one after the other, into a counter map; `add` is the addition
applied to the counts of one domain. -/
def mergeCounts (add : Nat → Nat → Nat) (m : GoMap) (shard : List DomainData) : GoMap :=
  shard.foldl
    (fun acc e => mapStore acc e.Domain (add (mapLoad acc e.Domain) e.CustomerQuantity)) m

/-- Reference definition of the sharded pipeline's last stage: the two shard results are
merged into an empty map, which is then copied out and sorted by domain as in the
sequential pipeline. -/
def mergeShards (add : Nat → Nat → Nat) (ord : MapOrder) (a b : List DomainData) :
    List DomainData :=
  finalize ord (mergeCounts add (mergeCounts add [] a) b)

/-- The data returned for the file `csvPath` holding a header and the given data lines. -/
def csvOutcome (ord : MapOrder) (header : GoString) (dataLines : List GoString) :
    ImportOutcome :=
  (ImportDomainData ord (csvFile (header :: dataLines) none) csvImporter).outcome

/-! ## End-to-end scenario C -/

/-- Row `i` of scenario C: a valid record for the domain `d<i>.com`. -/
def scenarioCRow (i : Nat) : GoString :=
  ascii "7,Name,user@d" ++ FormatUint i ++ ascii ".com"

/-- One pass over the 100 domains of scenario C. -/
def scenarioCBlock : List GoString := (List.range 100).map scenarioCRow

/-- The 10,000 data lines of scenario C: 100 passes over 100 distinct domains. -/
def scenarioC : List GoString := (List.replicate 100 scenarioCBlock).flatten

/-! ## Example environments -/

/-- The output path used in the examples. -/
def outPath : GoString := ascii "out.csv"

/-- The function `os.Create` on a system where only `outPath` can be created, on a device
with the given room. -/
def createOnly (room : Option Nat) : GoString → Except GoString (Option Nat) :=
  fun p => if p = outPath then .ok room else .error (ascii "no such file or directory")

/-- The environment whose input is `csvFile lines failure` and whose `os.Create` is
`createOnly room`. -/
def csvWorld (lines : List GoString) (failure : Option GoString) (room : Option Nat) : World :=
  { input := csvFile lines failure, Create := createOnly room }

/-- The header row of the output, with its line terminator. -/
def headerRow : GoString := ascii "domain,number_of_customers" ++ [newline]

/-! ## The scanner over the bytes of a file -/

/-- The constant `bufio.MaxScanTokenSize`, the buffer limit of a scanner made by
`bufio.NewScanner` (the code never calls `Buffer`). -/
def maxScanTokenSize : Nat := 65536

/-- The error `bufio.ErrTooLong`. -/
def errTooLong : GoString := ascii "bufio.Scanner: token too long"

/-- The bytes of a file as `bufio.ScanLines` meets them: the runs of bytes in front of each
line feed, in order (the last run may end at the end of the file instead), and the error of
the underlying reads once these bytes are read (`none`: end of file). -/
structure RawFile where
  segments : List GoString
  readErr : Option GoString
deriving DecidableEq, Repr

/-- The function `dropCR` of `bufio`: one trailing carriage return is removed. -/
def dropCR (data : GoString) : GoString :=
  if data.getLast? = some carriageReturn then data.dropLast else data

/-- The scanner made by `bufio.NewScanner(file)` (split function `ScanLines`, default
buffer) run over the runs of a file: each run shorter than `maxScanTokenSize` is delivered
without its trailing carriage return; at the first run that fills the buffer without a line
feed the scanner stops with `ErrTooLong`; after the last run it stops with the read error,
if any. -/
def bufioScan : List GoString → Option GoString → LineStream
  | [], e => { lines := [], failure := e }
  | seg :: rest, e =>
    if maxScanTokenSize ≤ seg.length then { lines := [], failure := some errTooLong }
    else
      { lines := dropCR seg :: (bufioScan rest e).lines
        failure := (bufioScan rest e).failure }

/-- The scanner run over a file. -/
def RawFile.scan (f : RawFile) : LineStream := bufioScan f.segments f.readErr

/-- The file system whose files are given by their bytes: `os.Open` fails or gives the file,
which `ImportDomainData` reads through the scanner. -/
def rawFileSystem (files : GoString → Except GoString RawFile) : FileSystem :=
  ⟨fun p =>
    match files p with
    | .error e => .error e
    | .ok f => .ok f.scan⟩

/-- The files of a system whose only file is `csvPath`, holding the given runs. -/
def csvFiles (segments : List GoString) (readErr : Option GoString) :
    GoString → Except GoString RawFile :=
  fun p =>
    if p = csvPath then .ok { segments := segments, readErr := readErr }
    else .error (ascii "no such file or directory")

/-- The file system whose only file is `csvPath`, holding the given runs. -/
def rawCsv (segments : List GoString) (readErr : Option GoString) : FileSystem :=
  rawFileSystem (csvFiles segments readErr)

/-- A line of exactly `maxScanTokenSize` bytes `x`. -/
def longLine : GoString := List.replicate maxScanTokenSize 120

/-- What `ImportDomainData` returns once the file is open, as a function of what the scanner
delivers (lines 57-119). -/
def streamOutcome (ord : MapOrder) (path : GoString) (s : LineStream) : ImportOutcome :=
  match s.lines, s.failure with
  | [], some e => .returned none (some (.headerReadFailed path e))
  | [], none => .returned none (some (.emptyFile path))
  | _ :: _, some e => .returned none (some (.readFailed path e))
  | _ :: dataLines, none => .returned (some (finalize ord (scannedCounts dataLines))) none

/-- The outcome for the file `csvPath` holding the run `header` followed by the runs
`dataSegments`, read to the end of the file without error. -/
def rawOutcome (ord : MapOrder) (header : GoString) (dataSegments : List GoString) :
    ImportOutcome :=
  (ImportDomainData ord (rawCsv (header :: dataSegments) none) csvImporter).outcome

/-! ## Strings: order -/

theorem strLess_irrefl (a : GoString) : strLess a a = false := by
  induction a with
  | nil => rfl
  | cons x xs ih => simp [strLess, ih]

theorem strLess_asymm : ∀ (a b : GoString), strLess a b = true → strLess b a = false
  | [], [], h => by simp [strLess] at h
  | [], _ :: _, _ => by simp [strLess]
  | _ :: _, [], h => by simp [strLess] at h
  | x :: xs, y :: ys, h => by
    simp only [strLess] at h ⊢
    by_cases h1 : x < y
    · have h2 : ¬ y < x := by omega
      simp [h2, h1]
    · by_cases h2 : y < x
      · simp [h1, h2] at h
      · simp only [h1, h2, if_false] at h ⊢
        exact strLess_asymm xs ys h

theorem strLess_trans : ∀ (a b c : GoString),
    strLess a b = true → strLess b c = true → strLess a c = true
  | [], [], _, h, _ => by simp [strLess] at h
  | [], _ :: _, [], _, h => by simp [strLess] at h
  | [], _ :: _, _ :: _, _, _ => by simp [strLess]
  | _ :: _, [], _, h, _ => by simp [strLess] at h
  | _ :: _, _ :: _, [], _, h => by simp [strLess] at h
  | x :: xs, y :: ys, z :: zs, h, h' => by
    simp only [strLess] at h h' ⊢
    by_cases hxy : x < y
    · by_cases hyz : y < z
      · have : x < z := by omega
        simp [this]
      · by_cases hzy : z < y
        · simp [hyz, hzy] at h'
        · have : x < z := by omega
          simp [this]
    · by_cases hyx : y < x
      · simp [hxy, hyx] at h
      · simp only [hxy, hyx, if_false] at h
        have hx : x = y := by omega
        subst hx
        by_cases hyz : x < z
        · simp [hyz]
        · by_cases hzy : z < x
          · simp [hyz, hzy] at h'
          · simp only [hyz, hzy, if_false] at h' ⊢
            exact strLess_trans xs ys zs h h'

theorem strLess_trichotomy : ∀ (a b : GoString),
    strLess a b = false → strLess b a = false → a = b
  | [], [], _, _ => rfl
  | [], _ :: _, h, _ => by simp [strLess] at h
  | _ :: _, [], _, h => by simp [strLess] at h
  | x :: xs, y :: ys, h, h' => by
    simp only [strLess] at h h'
    by_cases hxy : x < y
    · simp [hxy] at h
    · by_cases hyx : y < x
      · simp [hyx] at h'
      · simp only [hxy, hyx, if_false] at h h'
        have hx : x = y := by omega
        rw [hx, strLess_trichotomy xs ys h h']

theorem cmpCompare_le_iff (x y : GoString) : cmpCompare x y ≤ 0 ↔ strLess y x = false := by
  unfold cmpCompare
  by_cases h : strLess x y = true
  · simp [h, strLess_asymm x y h]
  · by_cases h' : strLess y x = true
    · simp [h, h']
    · simp [h, h']

/-! ## Strings: searching and splitting -/

theorem IndexByte_decomp (s : GoString) (c : Nat) :
    (c ∉ s ∧ IndexByte s c = -1) ∨
      ∃ l d : GoString, s = l ++ c :: d ∧ c ∉ l ∧ IndexByte s c = (l.length : Int) := by
  induction s with
  | nil => left; simp [IndexByte]
  | cons b bs ih =>
    by_cases hb : b = c
    · right
      exact ⟨[], bs, by simp [hb], by simp, by simp [IndexByte, hb]⟩
    · rcases ih with ⟨hn, hi⟩ | ⟨l, d, hs, hl, hi⟩
      · left
        refine ⟨?_, by simp [IndexByte, hb, hi]⟩
        simp only [List.mem_cons, not_or]
        exact ⟨fun h => hb h.symm, hn⟩
      · right
        refine ⟨b :: l, d, by simp [hs], ?_, ?_⟩
        · simp only [List.mem_cons, not_or]
          exact ⟨fun h => hb h.symm, hl⟩
        · have hne : IndexByte bs c ≠ -1 := by omega
          simp only [IndexByte, hb, hne, if_false, hi, List.length_cons]
          push_cast
          ring

theorem IndexByte_append (l d : GoString) (c : Nat) (hl : c ∉ l) :
    IndexByte (l ++ c :: d) c = (l.length : Int) := by
  induction l with
  | nil => simp [IndexByte]
  | cons b bs ih =>
    simp only [List.mem_cons, not_or] at hl
    have hb : b ≠ c := fun h => hl.1 h.symm
    have h1 := ih hl.2
    have hne : IndexByte (bs ++ c :: d) c ≠ -1 := by omega
    show IndexByte (b :: (bs ++ c :: d)) c = _
    rw [IndexByte, if_neg hb, if_neg hne, h1]
    simp

theorem Split_ne_nil (s : GoString) (sep : Nat) : Split s sep ≠ [] := by
  cases s with
  | nil => simp [Split]
  | cons c cs =>
    simp only [Split]
    split_ifs
    · simp
    · split <;> simp

theorem Split_no_sep (s : GoString) (sep : Nat) : ∀ f ∈ Split s sep, sep ∉ f := by
  induction s with
  | nil => simp [Split]
  | cons c cs ih =>
    intro f hf
    simp only [Split] at hf
    split_ifs at hf with hc
    · rcases List.mem_cons.1 hf with h | h
      · simp [h]
      · exact ih f h
    · split at hf
      · rename_i heq
        exact absurd heq (Split_ne_nil cs sep)
      · rename_i g gs heq
        rcases List.mem_cons.1 hf with h | h
        · subst h
          have hg : sep ∉ g := ih g (by simp [heq])
          simp only [List.mem_cons, not_or]
          exact ⟨fun h => hc h.symm, hg⟩
        · exact ih f (by simp [heq, h])

theorem Split_join (s : GoString) (sep : Nat) :
    List.intercalate [sep] (Split s sep) = s := by
  induction s with
  | nil => simp [Split, List.intercalate]
  | cons c cs ih =>
    simp only [Split]
    cases hsp : Split cs sep with
    | nil => exact absurd hsp (Split_ne_nil cs sep)
    | cons g gs =>
      rw [hsp] at ih
      split_ifs with hc
      · cases gs with
        | nil =>
          simp only [List.intercalate, List.intersperse, List.flatten] at ih ⊢
          simp only [List.append_nil] at ih
          simp [ih, hc]
        | cons g2 gs2 =>
          simp only [List.intercalate, List.intersperse, List.flatten] at ih ⊢
          simp only [List.singleton_append] at ih
          simp [ih, hc]
      · cases gs with
        | nil =>
          simp only [List.intercalate, List.intersperse, List.flatten] at ih ⊢
          simp only [List.append_nil] at ih
          simp [ih]
        | cons g2 gs2 =>
          simp only [List.intercalate, List.intersperse, List.flatten] at ih ⊢
          simp [← ih]

/-! ## The loop body -/

theorem processLine_eq (line : GoString) :
    processLine line =
      match (Split line comma).get? 2 with
      | none => .tooFewFields
      | some email => emailOutcome email := by
  unfold processLine emailOutcome
  by_cases h : (Split line comma).length < 3
  · have hn : (Split line comma).get? 2 = none := List.get?_eq_none.2 (by omega)
    simp only [h, if_true]
    rw [hn]
  · have hlt : 2 < (Split line comma).length := by omega
    have hs : (Split line comma).get? 2 = some ((Split line comma).get ⟨2, hlt⟩) :=
      List.get?_eq_get hlt
    simp only [h, if_false]
    rw [hs]

theorem emailOutcome_no_at (email : GoString) (h : atSign ∉ email) :
    emailOutcome email = .badSeparator := by
  rcases IndexByte_decomp email atSign with ⟨_, hi⟩ | ⟨l, d, hs, _, _⟩
  · simp [emailOutcome, hi]
  · exact absurd (by simp [hs]) h

theorem emailOutcome_decomp (l d : GoString) (hl : atSign ∉ l) :
    emailOutcome (l ++ atSign :: d) =
      if l = [] ∨ d = [] then .badSeparator else .counted d := by
  have hi := IndexByte_append l d atSign hl
  unfold emailOutcome
  simp only [hi]
  by_cases hl0 : l = []
  · subst hl0
    simp
  · by_cases hd0 : d = []
    · subst hd0
      simp
    · have h1 : 0 < l.length := List.length_pos.2 hl0
      have h2 : 0 < d.length := List.length_pos.2 hd0
      have hc : ¬ ((l.length : Int) = -1 ∨ (l.length : Int) = 0 ∨
          (l.length : Int) = ((l ++ atSign :: d).length : Int) - 1) := by
        simp only [List.length_append, List.length_cons, Nat.cast_add, Nat.cast_one]
        omega
      have hs : sliceFrom (l ++ atSign :: d) ((l.length : Int) + 1) = some d := by
        unfold sliceFrom
        have hb : 0 ≤ (l.length : Int) + 1 ∧
            (l.length : Int) + 1 ≤ ((l ++ atSign :: d).length : Int) := by
          simp only [List.length_append, List.length_cons, Nat.cast_add, Nat.cast_one]
          omega
        have ht : ((l.length : Int) + 1).toNat = l.length + 1 := by omega
        rw [if_pos hb, ht]
        simp
      rw [if_neg hc, hs]
      simp [hl0, hd0]

theorem emailOutcome_counted_iff (email d : GoString) :
    emailOutcome email = .counted d ↔
      ∃ l : GoString, email = l ++ atSign :: d ∧ l ≠ [] ∧ atSign ∉ l ∧ d ≠ [] := by
  constructor
  · intro h
    rcases IndexByte_decomp email atSign with ⟨hn, _⟩ | ⟨l, d', hs, hl, _⟩
    · rw [emailOutcome_no_at email hn] at h
      cases h
    · rw [hs, emailOutcome_decomp l d' hl] at h
      split_ifs at h with hc
      have hd : d' = d := by injection h
      subst hd
      exact ⟨l, hs, fun h0 => hc (Or.inl h0), hl, fun h0 => hc (Or.inr h0)⟩
  · rintro ⟨l, hs, hl0, hl, hd0⟩
    rw [hs, emailOutcome_decomp l d hl]
    simp [hl0, hd0]

theorem emailOutcome_safe (email : GoString) :
    emailOutcome email ≠ .panic ∧ emailOutcome email ≠ .emptyDomain := by
  rcases IndexByte_decomp email atSign with ⟨hn, _⟩ | ⟨l, d, hs, hl, _⟩
  · rw [emailOutcome_no_at email hn]
    exact ⟨by simp, by simp⟩
  · rw [hs, emailOutcome_decomp l d hl]
    split_ifs <;> exact ⟨by simp, by simp⟩

theorem processLine_safe (line : GoString) :
    processLine line ≠ .panic ∧ processLine line ≠ .emptyDomain := by
  rw [processLine_eq]
  cases (Split line comma).get? 2 with
  | none => exact ⟨by simp, by simp⟩
  | some email => exact emailOutcome_safe email

theorem processLine_counted_iff (line d : GoString) :
    processLine line = .counted d ↔ ValidRecord line d := by
  rw [processLine_eq]
  unfold ValidRecord
  cases hg : (Split line comma).get? 2 with
  | none =>
    have hlen : (Split line comma).length ≤ 2 := List.get?_eq_none.1 hg
    constructor
    · intro h
      cases h
    · rintro ⟨h3, _⟩
      omega
  | some email =>
    have hlen : 2 < (Split line comma).length := by
      by_contra hc
      have hn : (Split line comma).get? 2 = none := List.get?_eq_none.2 (by omega)
      rw [hn] at hg
      cases hg
    simp only [emailOutcome_counted_iff, Option.some.injEq]
    constructor
    · rintro ⟨l, h1, h2⟩
      exact ⟨by omega, l, h1, h2⟩
    · rintro ⟨_, l, h1, h2⟩
      exact ⟨l, h1, h2⟩

/-! ## The counter map -/

theorem mapLoad_mapStore (m : GoMap) (k k' : GoString) (v : Nat) :
    mapLoad (mapStore m k v) k' = if k' = k then v else mapLoad m k' := by
  induction m with
  | nil =>
    by_cases h : k' = k
    · simp [mapStore, mapLoad, h]
    · have h' : ¬ k = k' := fun e => h e.symm
      simp [mapStore, mapLoad, h, h']
  | cons e rest ih =>
    obtain ⟨k0, v0⟩ := e
    simp only [mapStore]
    by_cases h0 : k0 = k
    · simp only [h0, if_true, mapLoad]
      by_cases h : k' = k
      · simp [h]
      · have h' : ¬ k = k' := fun e => h e.symm
        simp [h, h']
    · simp only [h0, if_false, mapLoad, ih]
      by_cases h : k0 = k'
      · have h' : ¬ k' = k := fun e => h0 (h.trans e)
        simp [h, h']
      · simp [h]

theorem mapKeys_mapStore (m : GoMap) (k : GoString) (v : Nat) :
    mapKeys (mapStore m k v) = if k ∈ mapKeys m then mapKeys m else mapKeys m ++ [k] := by
  induction m with
  | nil => simp [mapStore, mapKeys]
  | cons e rest ih =>
    obtain ⟨k0, v0⟩ := e
    simp only [mapStore]
    by_cases h0 : k0 = k
    · simp [mapKeys, h0]
    · have h0' : ¬ k = k0 := fun e => h0 e.symm
      simp only [mapKeys, List.map_cons, List.mem_cons, h0, h0', if_false, false_or] at ih ⊢
      rw [ih]
      split_ifs <;> simp

theorem mapKeys_mapStore_nodup (m : GoMap) (k : GoString) (v : Nat)
    (h : (mapKeys m).Nodup) : (mapKeys (mapStore m k v)).Nodup := by
  rw [mapKeys_mapStore]
  split_ifs with hk
  · exact h
  · exact List.Nodup.append h (List.nodup_singleton k) (by simpa using hk)

theorem mem_mapKeys_mapStore (m : GoMap) (k k' : GoString) (v : Nat) :
    k' ∈ mapKeys (mapStore m k v) ↔ k' ∈ mapKeys m ∨ k' = k := by
  rw [mapKeys_mapStore]
  split_ifs with hk
  · constructor
    · exact Or.inl
    · rintro (h | h)
      · exact h
      · exact h ▸ hk
  · simp

theorem mem_map_iff_mapLoad (m : GoMap) (k : GoString) (v : Nat) (h : (mapKeys m).Nodup) :
    (k, v) ∈ m ↔ k ∈ mapKeys m ∧ mapLoad m k = v := by
  induction m with
  | nil => simp [mapKeys]
  | cons e rest ih =>
    obtain ⟨k0, v0⟩ := e
    have hnd : k0 ∉ mapKeys rest ∧ (mapKeys rest).Nodup := by
      simpa [mapKeys] using h
    have ih' := ih hnd.2
    by_cases h0 : k0 = k
    · subst h0
      have hno : (k0, v) ∉ rest := fun hm => hnd.1 (ih'.1 hm).1
      simp only [List.mem_cons, Prod.mk.injEq, true_and, hno, or_false, mapKeys, List.map_cons,
        true_or, mapLoad, if_true]
      exact eq_comm
    · have h0' : ¬ k = k0 := fun e => h0 e.symm
      simp only [List.mem_cons, Prod.mk.injEq, h0', false_and, false_or, mapKeys, List.map_cons,
        mapLoad, h0, if_false]
      exact ih'

theorem uint64Size_pos : 0 < uint64Size := by
  unfold uint64Size
  positivity

theorem mapLoad_foldl_mapIncr (ds : List GoString) (m : GoMap) (d : GoString) :
    mapLoad (ds.foldl mapIncr m) d =
      if d ∈ ds then (mapLoad m d + ds.count d) % uint64Size else mapLoad m d := by
  induction ds generalizing m with
  | nil => simp
  | cons x xs ih =>
    rw [List.foldl_cons, ih]
    unfold mapIncr
    rw [mapLoad_mapStore]
    by_cases hx : d = x
    · subst hx
      simp only [if_true, List.mem_cons, true_or, List.count_cons_self]
      split_ifs with hmem
      · rw [Nat.mod_add_mod]
        congr 1
        omega
      · rw [List.count_eq_zero_of_not_mem hmem]
    · have hx' : ¬ x = d := fun e => hx e.symm
      have hc : List.count d (x :: xs) = List.count d xs := by
        rw [List.count_cons]
        simp [hx']
      simp only [hx, if_false, List.mem_cons, false_or, hc]

theorem mem_mapKeys_foldl_mapIncr (ds : List GoString) (m : GoMap) (k : GoString) :
    k ∈ mapKeys (ds.foldl mapIncr m) ↔ k ∈ mapKeys m ∨ k ∈ ds := by
  induction ds generalizing m with
  | nil => simp
  | cons x xs ih =>
    rw [List.foldl_cons, ih]
    unfold mapIncr
    rw [mem_mapKeys_mapStore]
    simp only [List.mem_cons]
    tauto

theorem mapKeys_foldl_mapIncr_nodup (ds : List GoString) (m : GoMap)
    (h : (mapKeys m).Nodup) : (mapKeys (ds.foldl mapIncr m)).Nodup := by
  induction ds generalizing m with
  | nil => simpa using h
  | cons x xs ih =>
    rw [List.foldl_cons]
    exact ih _ (mapKeys_mapStore_nodup m x _ h)

theorem count_extractedDomains (lines : List GoString) (d : GoString) :
    (extractedDomains lines).count d = validCount lines d := by
  unfold extractedDomains validCount
  induction lines with
  | nil => simp
  | cons x xs ih =>
    rw [List.countP_cons]
    cases hp : processLine x with
    | counted d' =>
      have hl : lineDomain x = some d' := by simp [lineDomain, hp]
      rw [List.filterMap_cons_some hl, List.count_cons, ih]
      by_cases hd : d' = d
      · simp [hd]
      · simp [hd]
    | tooFewFields =>
      have hl : lineDomain x = none := by simp [lineDomain, hp]
      rw [List.filterMap_cons_none hl, ih]
      simp
    | badSeparator =>
      have hl : lineDomain x = none := by simp [lineDomain, hp]
      rw [List.filterMap_cons_none hl, ih]
      simp
    | emptyDomain =>
      have hl : lineDomain x = none := by simp [lineDomain, hp]
      rw [List.filterMap_cons_none hl, ih]
      simp
    | panic =>
      have hl : lineDomain x = none := by simp [lineDomain, hp]
      rw [List.filterMap_cons_none hl, ih]
      simp

theorem mem_extractedDomains (lines : List GoString) (d : GoString) :
    d ∈ extractedDomains lines ↔ ∃ line ∈ lines, processLine line = .counted d := by
  unfold extractedDomains
  rw [List.mem_filterMap]
  constructor
  · rintro ⟨line, hm, hl⟩
    refine ⟨line, hm, ?_⟩
    unfold lineDomain at hl
    split at hl
    · rename_i d' hp
      rw [hp]
      injection hl with hl
      rw [hl]
    · cases hl
  · rintro ⟨line, hm, hp⟩
    exact ⟨line, hm, by simp [lineDomain, hp]⟩

/-! ## The scan loop -/

theorem scanStep_counts (st : ScanState) (line : GoString) :
    ∃ st', scanStep st line = some st' ∧
      st'.domainCounts =
        match lineDomain line with
        | some d => mapIncr st.domainCounts d
        | none => st.domainCounts := by
  have hsafe := (processLine_safe line).1
  unfold scanStep lineDomain
  cases hp : processLine line with
  | panic => exact absurd hp hsafe
  | counted d => exact ⟨_, rfl, rfl⟩
  | tooFewFields => exact ⟨_, rfl, rfl⟩
  | badSeparator => exact ⟨_, rfl, rfl⟩
  | emptyDomain => exact ⟨_, rfl, rfl⟩

theorem scanLines_counts (lines : List GoString) (st : ScanState) :
    ∃ st', scanLines lines st = some st' ∧
      st'.domainCounts = (extractedDomains lines).foldl mapIncr st.domainCounts := by
  induction lines generalizing st with
  | nil => exact ⟨st, rfl, rfl⟩
  | cons x xs ih =>
    obtain ⟨st1, h1, hc1⟩ := scanStep_counts st x
    obtain ⟨st2, h2, hc2⟩ := ih st1
    refine ⟨st2, by simp [scanLines, h1, h2], ?_⟩
    rw [hc2, hc1]
    unfold extractedDomains
    cases hl : lineDomain x with
    | none => rw [List.filterMap_cons_none hl]
    | some d => rw [List.filterMap_cons_some hl, List.foldl_cons]

theorem scanLines_initial (dataLines : List GoString) :
    ∃ st, scanLines dataLines initialState = some st ∧
      st.domainCounts = scannedCounts dataLines := by
  obtain ⟨st, h, hc⟩ := scanLines_counts dataLines initialState
  exact ⟨st, h, by rw [hc]; rfl⟩

theorem scannedCounts_nodup (dataLines : List GoString) :
    (mapKeys (scannedCounts dataLines)).Nodup :=
  mapKeys_foldl_mapIncr_nodup _ [] (by simp [mapKeys])

theorem mem_scannedCounts (dataLines : List GoString) (d : GoString) (v : Nat) :
    (d, v) ∈ scannedCounts dataLines ↔
      (∃ line ∈ dataLines, processLine line = .counted d) ∧
        v = validCount dataLines d % uint64Size := by
  rw [mem_map_iff_mapLoad _ _ _ (scannedCounts_nodup dataLines)]
  unfold scannedCounts
  rw [mem_mapKeys_foldl_mapIncr, mapLoad_foldl_mapIncr, ← mem_extractedDomains,
    count_extractedDomains]
  constructor
  · rintro ⟨hk, hv⟩
    have hk' : d ∈ extractedDomains dataLines := by
      rcases hk with h | h
      · simp [mapKeys] at h
      · exact h
    rw [if_pos hk'] at hv
    refine ⟨hk', ?_⟩
    rw [← hv]
    simp [mapLoad]
  · rintro ⟨hk, hv⟩
    refine ⟨Or.inr hk, ?_⟩
    rw [if_pos hk, hv]
    simp [mapLoad]

/-! ## The finalizer -/

theorem SortFunc_perm {α : Type} (cmp : α → α → Int) (l : List α) :
    (SortFunc cmp l).Perm l := by
  unfold SortFunc
  exact List.perm_insertionSort _ _

theorem byDomain_total (a b : DomainData) : byDomain a b ≤ 0 ∨ byDomain b a ≤ 0 := by
  unfold byDomain
  rw [cmpCompare_le_iff, cmpCompare_le_iff]
  by_cases h : strLess b.Domain a.Domain = true
  · right
    exact strLess_asymm _ _ h
  · left
    simpa using h

theorem byDomain_trans (a b c : DomainData) (hab : byDomain a b ≤ 0) (hbc : byDomain b c ≤ 0) :
    byDomain a c ≤ 0 := by
  unfold byDomain at hab hbc ⊢
  rw [cmpCompare_le_iff] at hab hbc ⊢
  by_contra hca
  have hca' : strLess c.Domain a.Domain = true := by simpa using hca
  by_cases hcb : strLess c.Domain b.Domain = true
  · rw [hcb] at hbc
    cases hbc
  · have hcb' : strLess c.Domain b.Domain = false := by simpa using hcb
    have hbc' : b.Domain = c.Domain := strLess_trichotomy _ _ (by
      by_contra hx
      have hx' : strLess b.Domain c.Domain = true := by simpa using hx
      have := strLess_trans _ _ _ hx' hca'
      rw [this] at hab
      cases hab) hcb'
    rw [hbc'] at hab
    rw [hab] at hca'
    cases hca'

theorem SortFunc_weakly_sorted (l : List DomainData) :
    (SortFunc byDomain l).Pairwise (fun a b => byDomain a b ≤ 0) := by
  unfold SortFunc
  have hT : IsTotal DomainData (fun a b => byDomain a b ≤ 0) := ⟨byDomain_total⟩
  have hTr : IsTrans DomainData (fun a b => byDomain a b ≤ 0) := ⟨byDomain_trans⟩
  exact @List.sorted_insertionSort _ _ _ hT hTr _

theorem SortFunc_sorted (l : List DomainData) (h : (l.map DomainData.Domain).Nodup) :
    (SortFunc byDomain l).Pairwise (fun a b => strLess a.Domain b.Domain = true) := by
  have h1 := SortFunc_weakly_sorted l
  have hnd : ((SortFunc byDomain l).map DomainData.Domain).Nodup :=
    ((SortFunc_perm byDomain l).map DomainData.Domain).nodup_iff.2 h
  have h2 : (SortFunc byDomain l).Pairwise (fun a b => a.Domain ≠ b.Domain) :=
    List.pairwise_map.1 hnd
  refine (h1.and h2).imp ?_
  intro a b hab
  obtain ⟨hle, hne⟩ := hab
  unfold byDomain at hle
  rw [cmpCompare_le_iff] at hle
  by_contra hlt
  exact hne (strLess_trichotomy _ _ (by simpa using hlt) hle)

theorem sorted_perm_unique (l₁ l₂ : List DomainData) (hp : l₁.Perm l₂)
    (h₁ : l₁.Pairwise (fun a b => strLess a.Domain b.Domain = true))
    (h₂ : l₂.Pairwise (fun a b => strLess a.Domain b.Domain = true)) : l₁ = l₂ := by
  have hA : IsAntisymm DomainData (fun a b => strLess a.Domain b.Domain = true) := by
    constructor
    intro a b hab hba
    rw [strLess_asymm _ _ hab] at hba
    cases hba
  exact @List.eq_of_perm_of_sorted _ _ hA _ _ hp h₁ h₂

theorem SortFunc_perm_irrelevant (l₁ l₂ : List DomainData) (hp : l₁.Perm l₂)
    (h : (l₂.map DomainData.Domain).Nodup) : SortFunc byDomain l₁ = SortFunc byDomain l₂ := by
  have h' : (l₁.map DomainData.Domain).Nodup := (hp.map DomainData.Domain).nodup_iff.2 h
  exact sorted_perm_unique _ _
    (((SortFunc_perm byDomain l₁).trans hp).trans (SortFunc_perm byDomain l₂).symm)
    (SortFunc_sorted l₁ h') (SortFunc_sorted l₂ h)

theorem map_Domain_toDomainData (m : GoMap) :
    (m.map toDomainData).map DomainData.Domain = mapKeys m := by
  unfold mapKeys
  rw [List.map_map]
  rfl

theorem copyOut_perm (ord : MapOrder) (m : GoMap) :
    (copyOut ord m).Perm (m.map toDomainData) :=
  (ord.perm m).map toDomainData

theorem copyOut_nodup (ord : MapOrder) (m : GoMap) (h : (mapKeys m).Nodup) :
    ((copyOut ord m).map DomainData.Domain).Nodup := by
  have hp := (copyOut_perm ord m).map DomainData.Domain
  rw [map_Domain_toDomainData] at hp
  exact hp.nodup_iff.2 h

theorem finalize_perm (ord : MapOrder) (m : GoMap) :
    (finalize ord m).Perm (m.map toDomainData) :=
  (SortFunc_perm byDomain _).trans (copyOut_perm ord m)

theorem mem_finalize (ord : MapOrder) (m : GoMap) (e : DomainData) :
    e ∈ finalize ord m ↔ (e.Domain, e.CustomerQuantity) ∈ m := by
  rw [(finalize_perm ord m).mem_iff, List.mem_map]
  constructor
  · rintro ⟨⟨k, v⟩, hm, rfl⟩
    exact hm
  · intro hm
    exact ⟨(e.Domain, e.CustomerQuantity), hm, rfl⟩

theorem finalize_nodup (ord : MapOrder) (m : GoMap) (h : (mapKeys m).Nodup) :
    ((finalize ord m).map DomainData.Domain).Nodup := by
  have hp := (finalize_perm ord m).map DomainData.Domain
  rw [map_Domain_toDomainData] at hp
  exact hp.nodup_iff.2 h

theorem finalize_sorted (ord : MapOrder) (m : GoMap) (h : (mapKeys m).Nodup) :
    (finalize ord m).Pairwise (fun a b => strLess a.Domain b.Domain = true) :=
  SortFunc_sorted _ (copyOut_nodup ord m h)

theorem finalize_order_irrelevant (ord₁ ord₂ : MapOrder) (m : GoMap)
    (h : (mapKeys m).Nodup) : finalize ord₁ m = finalize ord₂ m :=
  SortFunc_perm_irrelevant _ _ ((copyOut_perm ord₁ m).trans (copyOut_perm ord₂ m).symm)
    (copyOut_nodup ord₂ m h)

theorem finalize_nil (ord : MapOrder) : finalize ord [] = [] :=
  List.perm_nil.1 (finalize_perm ord [])

theorem finalize_singleton (ord : MapOrder) (k : GoString) (v : Nat) :
    finalize ord [(k, v)] = [⟨k, v⟩] :=
  List.perm_singleton.1 (finalize_perm ord [(k, v)])

theorem filter_domain_eq_singleton (l : List DomainData) (e : DomainData)
    (hnd : (l.map DomainData.Domain).Nodup) (he : e ∈ l) :
    l.filter (fun x => decide (x.Domain = e.Domain)) = [e] := by
  induction l with
  | nil => cases he
  | cons x xs ih =>
    have hx : x.Domain ∉ xs.map DomainData.Domain ∧ (xs.map DomainData.Domain).Nodup := by
      simpa using hnd
    rcases List.mem_cons.1 he with h | h
    · subst h
      have hnone : xs.filter (fun x => decide (x.Domain = e.Domain)) = [] := by
        rw [List.filter_eq_nil_iff]
        intro y hy hyd
        exact hx.1 (List.mem_map.2 ⟨y, hy, by simpa using hyd⟩)
      simp [List.filter_cons, hnone]
    · have hne : ¬ x.Domain = e.Domain := fun heq =>
        hx.1 (List.mem_map.2 ⟨e, h, heq.symm⟩)
      simp [List.filter_cons, hne, ih hx.2 h]

/-! ## Repeated lines -/

theorem foldl_mapIncr_replicate (n : Nat) (d : GoString) (v : Nat) :
    (List.replicate n d).foldl mapIncr [(d, v % uint64Size)] =
      [(d, (v + n) % uint64Size)] := by
  induction n generalizing v with
  | zero => simp
  | succ n ih =>
    rw [List.replicate_succ, List.foldl_cons]
    have h1 : mapIncr [(d, v % uint64Size)] d = [(d, (v + 1) % uint64Size)] := by
      simp [mapIncr, mapStore, mapLoad]
    rw [h1, ih]
    congr 3
    omega

theorem extractedDomains_replicate (n : Nat) (line d : GoString)
    (h : lineDomain line = some d) :
    extractedDomains (List.replicate n line) = List.replicate n d := by
  unfold extractedDomains
  induction n with
  | zero => rfl
  | succ n ih => rw [List.replicate_succ, List.filterMap_cons_some h, ih, List.replicate_succ]

theorem scannedCounts_replicate (n : Nat) (line d : GoString)
    (h : lineDomain line = some d) (hn : 0 < n) :
    scannedCounts (List.replicate n line) = [(d, n % uint64Size)] := by
  obtain ⟨n, rfl⟩ := Nat.exists_eq_succ_of_ne_zero (Nat.pos_iff_ne_zero.1 hn)
  unfold scannedCounts
  rw [extractedDomains_replicate _ _ _ h, List.replicate_succ, List.foldl_cons]
  have h1 : mapIncr [] d = [(d, 1 % uint64Size)] := by
    simp [mapIncr, mapStore, mapLoad]
  rw [h1, foldl_mapIncr_replicate]
  congr 3
  omega

theorem validCount_replicate (n : Nat) (line d : GoString)
    (h : lineDomain line = some d) :
    validCount (List.replicate n line) d = n := by
  rw [← count_extractedDomains, extractedDomains_replicate _ _ _ h]
  exact List.count_replicate_self d n

/-! ## ImportDomainData on an opened stream -/

theorem import_of_clean_stream (ord : MapOrder) (fs : FileSystem) (ci : Importer)
    (header : GoString) (dataLines : List GoString)
    (hp : ci.path ≠ []) (ho : fs.Open ci.path = .ok ⟨header :: dataLines, none⟩) :
    ImportDomainData ord fs ci =
      { outcome := .returned (some (finalize ord (scannedCounts dataLines))) none
        opened := [ci.path] } := by
  obtain ⟨st, hs, hc⟩ := scanLines_initial dataLines
  unfold ImportDomainData
  simp only [if_neg hp, ho, hs, hc]

theorem import_of_failed_stream (ord : MapOrder) (fs : FileSystem) (ci : Importer)
    (header : GoString) (dataLines : List GoString) (e : GoString)
    (hp : ci.path ≠ []) (ho : fs.Open ci.path = .ok ⟨header :: dataLines, some e⟩) :
    ImportDomainData ord fs ci =
      { outcome := .returned none (some (.readFailed ci.path e))
        opened := [ci.path] } := by
  obtain ⟨st, hs, _⟩ := scanLines_initial dataLines
  unfold ImportDomainData
  simp only [if_neg hp, ho, hs]

theorem import_success_inv (ord : MapOrder) (fs : FileSystem) (ci : Importer)
    (data : List DomainData)
    (h : (ImportDomainData ord fs ci).outcome = .returned (some data) none) :
    ∃ header dataLines, ci.path ≠ [] ∧
      fs.Open ci.path = .ok ⟨header :: dataLines, none⟩ ∧
      data = finalize ord (scannedCounts dataLines) := by
  by_cases hp : ci.path = []
  · simp [ImportDomainData, hp] at h
  · cases ho : fs.Open ci.path with
    | error e => simp [ImportDomainData, hp, ho] at h
    | ok stream =>
      obtain ⟨lines, failure⟩ := stream
      cases lines with
      | nil => cases failure <;> simp [ImportDomainData, hp, ho] at h
      | cons header dataLines =>
        cases failure with
        | some e =>
          rw [import_of_failed_stream ord fs ci header dataLines e hp ho] at h
          simp at h
        | none =>
          rw [import_of_clean_stream ord fs ci header dataLines hp ho] at h
          simp only [ImportOutcome.returned.injEq, Option.some.injEq, and_true] at h
          exact ⟨header, dataLines, hp, rfl, h.symm⟩

theorem import_order_irrelevant (ord₁ ord₂ : MapOrder) (fs : FileSystem) (ci : Importer) :
    ImportDomainData ord₁ fs ci = ImportDomainData ord₂ fs ci := by
  by_cases hp : ci.path = []
  · simp [ImportDomainData, hp]
  · cases ho : fs.Open ci.path with
    | error e => simp [ImportDomainData, hp, ho]
    | ok stream =>
      obtain ⟨lines, failure⟩ := stream
      cases lines with
      | nil => cases failure <;> simp [ImportDomainData, hp, ho]
      | cons header dataLines =>
        cases failure with
        | some e =>
          rw [import_of_failed_stream ord₁ fs ci header dataLines e hp ho,
            import_of_failed_stream ord₂ fs ci header dataLines e hp ho]
        | none =>
          rw [import_of_clean_stream ord₁ fs ci header dataLines hp ho,
            import_of_clean_stream ord₂ fs ci header dataLines hp ho,
            finalize_order_irrelevant ord₁ ord₂ _ (scannedCounts_nodup dataLines)]

theorem csvFile_Open (lines : List GoString) (failure : Option GoString) :
    (csvFile lines failure).Open csvImporter.path = .ok ⟨lines, failure⟩ := by
  simp [csvFile, singleFile, csvImporter, NewCustomerImporter]

theorem csvImporter_path_ne : csvImporter.path ≠ [] := by decide

theorem import_csv_repeated (ord : MapOrder) (n : Nat) (line d : GoString)
    (h : lineDomain line = some d) (hn : 0 < n) :
    (ImportDomainData ord (csvFile (headerLine :: List.replicate n line) none)
        csvImporter).outcome =
      .returned (some [⟨d, n % uint64Size⟩]) none := by
  rw [import_of_clean_stream ord _ csvImporter headerLine (List.replicate n line)
    csvImporter_path_ne (csvFile_Open _ _), scannedCounts_replicate n line d h hn,
    finalize_singleton]

theorem lineDomain_of_malformed (line : GoString) (h : MalformedRecord line) :
    lineDomain line = none := by
  have hbad : processLine line = .tooFewFields ∨ processLine line = .badSeparator := by
    rw [processLine_eq]
    rcases h with hlen | ⟨email, hg, hcase⟩
    · have hn : (Split line comma).get? 2 = none := List.get?_eq_none.2 (by omega)
      rw [hn]
      exact Or.inl rfl
    · rw [hg]
      right
      rcases hcase with hno | hhead | ⟨l, hl, hnl⟩
      · exact emailOutcome_no_at email hno
      · cases email with
        | nil => cases hhead
        | cons b rest =>
          have hb : b = atSign := by simpa using hhead
          subst hb
          have := emailOutcome_decomp [] rest (by simp)
          simpa using this
      · rw [hl]
        have := emailOutcome_decomp l [] hnl
        simpa using this
  unfold lineDomain
  rcases hbad with hb | hb <;> rw [hb]

theorem scannedCounts_skip (pre post : List GoString) (bad : GoString)
    (h : lineDomain bad = none) :
    scannedCounts (pre ++ bad :: post) = scannedCounts (pre ++ post) := by
  unfold scannedCounts extractedDomains
  rw [List.filterMap_append, List.filterMap_append, List.filterMap_cons_none h]

/-! ## The claims -/

/-- Completeness on a delivered stream: when the scanner delivers a header and the data
lines and ends cleanly, the call succeeds, and for every domain `d` borne by at least one
valid data line the returned sequence has exactly one entry whose `Domain` is `d`; its
`CustomerQuantity` is the number of valid data lines bearing `d` reduced modulo `2^64`. -/
theorem completeness_on_stream (ord : MapOrder) (fs : FileSystem) (ci : Importer)
    (header : GoString) (dataLines : List GoString)
    (hp : ci.path ≠ []) (ho : fs.Open ci.path = .ok ⟨header :: dataLines, none⟩) :
    ∃ data, (ImportDomainData ord fs ci).outcome = .returned (some data) none ∧
      ∀ d, (∃ line ∈ dataLines, ValidRecord line d) →
        data.filter (fun e => decide (e.Domain = d)) =
            [⟨d, validCount dataLines d % uint64Size⟩] ∧
          (validCount dataLines d < uint64Size →
            data.filter (fun e => decide (e.Domain = d)) = [⟨d, validCount dataLines d⟩]) := by
  refine ⟨finalize ord (scannedCounts dataLines), ?_, ?_⟩
  · rw [import_of_clean_stream ord fs ci header dataLines hp ho]
  · rintro d ⟨line, hmem, hvalid⟩
    have hin : (⟨d, validCount dataLines d % uint64Size⟩ : DomainData) ∈
        finalize ord (scannedCounts dataLines) := by
      rw [mem_finalize, mem_scannedCounts]
      exact ⟨⟨line, hmem, (processLine_counted_iff line d).2 hvalid⟩, rfl⟩
    have hf := filter_domain_eq_singleton _ _
      (finalize_nodup ord _ (scannedCounts_nodup dataLines)) hin
    refine ⟨hf, fun hlt => ?_⟩
    rw [hf, Nat.mod_eq_of_lt hlt]

/-- C2 (sorting). Whenever `ImportDomainData` succeeds, the returned sequence is strictly
ascending by `Domain` under byte-wise comparison: every earlier entry is strictly below every
later one, in particular each adjacent pair, so no `Domain` occurs twice. -/
theorem C2_strictly_ascending (ord : MapOrder) (fs : FileSystem) (ci : Importer)
    (data : List DomainData)
    (h : (ImportDomainData ord fs ci).outcome = .returned (some data) none) :
    (∀ i j : Fin data.length, i < j →
        strLess (data.get i).Domain (data.get j).Domain = true) ∧
      (∀ (i : Nat) (hi : i + 1 < data.length),
        strLess (data.get ⟨i, Nat.lt_of_succ_lt hi⟩).Domain (data.get ⟨i + 1, hi⟩).Domain
          = true) ∧
      (data.map DomainData.Domain).Nodup := by
  obtain ⟨header, dataLines, _, _, hd⟩ := import_success_inv ord fs ci data h
  subst hd
  have hs := finalize_sorted ord _ (scannedCounts_nodup dataLines)
  have hall := List.pairwise_iff_get.1 hs
  refine ⟨fun i j hij => hall i j hij, fun i hi => ?_, ?_⟩
  · exact hall ⟨i, Nat.lt_of_succ_lt hi⟩ ⟨i + 1, hi⟩ (by
      show i < i + 1
      omega)
  · exact finalize_nodup ord _ (scannedCounts_nodup dataLines)

/-- C2 at a concrete input: the rows of scenario A given in reverse order come back sorted,
`example.com` strictly before `other.com`, with no repeated domain. -/
theorem C2_scenario_sorted :
    (ImportDomainData insertionOrder (csvFile (headerLine :: scenarioA.reverse) none)
        csvImporter).outcome =
        .returned (some [⟨ascii "example.com", 2⟩, ⟨ascii "other.com", 1⟩]) none ∧
      strLess (ascii "example.com") (ascii "other.com") = true ∧
      ([(⟨ascii "example.com", 2⟩ : DomainData), ⟨ascii "other.com", 1⟩].map
        DomainData.Domain).Nodup := by
  have hout : (ImportDomainData insertionOrder (csvFile (headerLine :: scenarioA.reverse) none)
      csvImporter).outcome =
        .returned (some [⟨ascii "example.com", 2⟩, ⟨ascii "other.com", 1⟩]) none := by decide
  have h := C2_strictly_ascending insertionOrder _ csvImporter _ hout
  exact ⟨hout, h.2.1 0 (by decide), h.2.2⟩

/-- C3 (per-line extraction equals its reference definition). A line reaches the counter
increment for `d` exactly when it is a valid record for `d` in the sense of the reference
definition (`ValidRecord`: at least three comma-separated fields, the third of the form
`l ++ "@" ++ d` with `l` non-empty and free of `@`, `d` non-empty); one loop iteration then
increments the counter of exactly that `d` and no other, and otherwise leaves the map
unchanged; two lines
with the same third field take the same branch; and the domain is kept verbatim (later `@`,
upper case and blanks included). -/
theorem C3_extraction_refines :
    (∀ line d : GoString, processLine line = .counted d ↔ ValidRecord line d) ∧
      (∀ (st : ScanState) (line : GoString), ∃ st', scanStep st line = some st' ∧
        ((∃ d, ValidRecord line d ∧ st'.domainCounts = mapIncr st.domainCounts d ∧
            mapLoad st'.domainCounts d = (mapLoad st.domainCounts d + 1) % uint64Size ∧
            ∀ k, k ≠ d → mapLoad st'.domainCounts k = mapLoad st.domainCounts k) ∨
          ((¬ ∃ d, ValidRecord line d) ∧ st'.domainCounts = st.domainCounts))) ∧
      (∀ line line' : GoString,
        (Split line comma).get? 2 = (Split line' comma).get? 2 →
          processLine line = processLine line') ∧
      processLine (ascii "9, Ann ,Ab@Ex ample.COM@x ,tail") =
        .counted (ascii "Ex ample.COM@x ") := by
  refine ⟨processLine_counted_iff, ?_, ?_, by decide⟩
  · intro st line
    obtain ⟨st', hs, hc⟩ := scanStep_counts st line
    refine ⟨st', hs, ?_⟩
    cases hl : lineDomain line with
    | some d =>
      left
      rw [hl] at hc
      have hp : processLine line = .counted d := by
        unfold lineDomain at hl
        split at hl
        · rename_i d' hp
          injection hl with hl
          rw [hp, hl]
        · cases hl
      refine ⟨d, (processLine_counted_iff line d).1 hp, hc, ?_, fun k hk => ?_⟩
      · rw [hc]
        unfold mapIncr
        rw [mapLoad_mapStore, if_pos rfl]
      · rw [hc]
        unfold mapIncr
        rw [mapLoad_mapStore, if_neg hk]
    | none =>
      right
      rw [hl] at hc
      refine ⟨?_, hc⟩
      rintro ⟨d, hv⟩
      have hp := (processLine_counted_iff line d).2 hv
      simp [lineDomain, hp] at hl
  · intro line line' heq
    rw [processLine_eq, processLine_eq, heq]

/-- C3 at concrete lines: two rows that differ in every field but the third take the same
branch, the increment for `example.com`. -/
theorem C3_third_field_only :
    (Split (ascii "1,Foo,a@example.com") comma).get? 2 =
        (Split (ascii ",,a@example.com,x,y") comma).get? 2 ∧
      processLine (ascii "1,Foo,a@example.com") = processLine (ascii ",,a@example.com,x,y") ∧
      processLine (ascii ",,a@example.com,x,y") = .counted (ascii "example.com") :=
  ⟨by decide,
    C3_extraction_refines.2.2.1 (ascii "1,Foo,a@example.com") (ascii ",,a@example.com,x,y")
      (by decide),
    by decide⟩

/-- Skipping on a delivered stream: a malformed record among the delivered data lines leaves
the whole result unchanged. -/
theorem malformed_skipped_on_stream (ord : MapOrder) (fs fs' : FileSystem) (ci : Importer)
    (header bad : GoString) (pre post : List GoString) (failure : Option GoString)
    (hp : ci.path ≠ [])
    (ho : fs.Open ci.path = .ok ⟨header :: (pre ++ bad :: post), failure⟩)
    (ho' : fs'.Open ci.path = .ok ⟨header :: (pre ++ post), failure⟩)
    (hbad : MalformedRecord bad) :
    ImportDomainData ord fs ci = ImportDomainData ord fs' ci ∧
      (failure = none →
        ∃ data, (ImportDomainData ord fs ci).outcome = .returned (some data) none) := by
  have hskip := scannedCounts_skip pre post bad (lineDomain_of_malformed bad hbad)
  cases failure with
  | some e =>
    refine ⟨?_, fun hf => by cases hf⟩
    rw [import_of_failed_stream ord fs ci header _ e hp ho,
      import_of_failed_stream ord fs' ci header _ e hp ho']
  | none =>
    refine ⟨?_, fun _ => ⟨_, by rw [import_of_clean_stream ord fs ci header _ hp ho]⟩⟩
    rw [import_of_clean_stream ord fs ci header _ hp ho,
      import_of_clean_stream ord fs' ci header _ hp ho', hskip]

/-- C5 (output entity invariant, amended for the 64-bit counter). For every input made of a
header and any data lines on which `ImportDomainData` succeeds, every returned entry has a
non-empty `Domain`, at least one valid record bears that domain, and its `CustomerQuantity` is
the number of those records reduced modulo `2^64` (so below `2^64`); it is at least 1 whenever
the input has fewer than `2^64` data lines. -/
theorem C5_entry_invariant (ord : MapOrder) (fs : FileSystem) (ci : Importer)
    (header : GoString) (dataLines : List GoString) (data : List DomainData)
    (ho : fs.Open ci.path = .ok ⟨header :: dataLines, none⟩)
    (h : (ImportDomainData ord fs ci).outcome = .returned (some data) none) :
    ∀ e ∈ data, e.Domain ≠ [] ∧
      1 ≤ validCount dataLines e.Domain ∧
      e.CustomerQuantity = validCount dataLines e.Domain % uint64Size ∧
      e.CustomerQuantity < uint64Size ∧
      (dataLines.length < uint64Size → 1 ≤ e.CustomerQuantity) := by
  obtain ⟨header', dataLines', _, ho2, hd⟩ := import_success_inv ord fs ci data h
  rw [ho] at ho2
  have hl : dataLines = dataLines' := by
    injection ho2 with h1
    injection h1 with h2 _
    injection h2
  subst hl
  subst hd
  intro e he
  rw [mem_finalize, mem_scannedCounts] at he
  obtain ⟨⟨line, hmem, hproc⟩, hq⟩ := he
  obtain ⟨_, l, _, _, _, hne⟩ := (processLine_counted_iff line e.Domain).1 hproc
  have hpos : 1 ≤ validCount dataLines e.Domain := by
    unfold validCount
    exact List.countP_pos_iff.2 ⟨line, hmem, by simpa using hproc⟩
  have hle : validCount dataLines e.Domain ≤ dataLines.length := by
    unfold validCount
    exact List.countP_le_length _
  refine ⟨hne, hpos, hq, ?_, fun hlen => ?_⟩
  · rw [hq]
    exact Nat.mod_lt _ uint64Size_pos
  · rw [hq, Nat.mod_eq_of_lt (by omega)]
    exact hpos

/-- C5 at a concrete input: both entries returned for scenario A have a non-empty domain and
a count of at least 1. -/
theorem C5_scenario_entries :
    (ImportDomainData insertionOrder (csvFile (headerLine :: scenarioA) none)
        csvImporter).outcome =
        .returned (some [⟨ascii "example.com", 2⟩, ⟨ascii "other.com", 1⟩]) none ∧
      scenarioA.length < uint64Size ∧
      ∀ e ∈ [(⟨ascii "example.com", 2⟩ : DomainData), ⟨ascii "other.com", 1⟩],
        e.Domain ≠ [] ∧ 1 ≤ e.CustomerQuantity := by
  have hout : (ImportDomainData insertionOrder (csvFile (headerLine :: scenarioA) none)
      csvImporter).outcome =
        .returned (some [⟨ascii "example.com", 2⟩, ⟨ascii "other.com", 1⟩]) none := by decide
  have hlen : scenarioA.length < uint64Size := by decide
  refine ⟨hout, hlen, fun e he => ?_⟩
  have h := C5_entry_invariant insertionOrder _ csvImporter headerLine scenarioA _
    (csvFile_Open _ _) hout e he
  exact ⟨h.1, h.2.2.2.2 hlen⟩

/-- C5, counterexample to the claim as stated: for a header followed by `2^64` copies of the
valid row `,,x@y`, the call succeeds and the entry returned for `y` has `CustomerQuantity`
0. -/
theorem C5_zero_quantity :
    (ImportDomainData insertionOrder
        (csvFile (headerLine :: List.replicate uint64Size (ascii ",,x@y")) none)
        csvImporter).outcome =
      .returned (some [⟨ascii "y", 0⟩]) none := by
  rw [import_csv_repeated insertionOrder uint64Size _ (ascii "y") (by decide)
    uint64Size_pos, Nat.mod_self]

/-- C6 (empty input is fatal). When the opened stream delivers no line and reports no read
error, `ImportDomainData` returns the empty-file error and a nil slice. -/
theorem C6_empty_input_fatal (ord : MapOrder) (fs : FileSystem) (ci : Importer)
    (hp : ci.path ≠ []) (ho : fs.Open ci.path = .ok ⟨[], none⟩) :
    (ImportDomainData ord fs ci).outcome = .returned none (some (.emptyFile ci.path)) := by
  unfold ImportDomainData
  simp only [if_neg hp, ho]

/-- C6 at a concrete input: the empty file `customers.csv`. -/
theorem C6_empty_csv :
    csvImporter.path ≠ [] ∧
      (ImportDomainData insertionOrder (csvFile [] none) csvImporter).outcome =
        .returned none (some (.emptyFile csvPath)) :=
  ⟨csvImporter_path_ne,
    C6_empty_input_fatal insertionOrder (csvFile [] none) csvImporter csvImporter_path_ne
      (csvFile_Open _ _)⟩

/-- C7 (header-only success). When the stream delivers exactly one line, whatever its
content, and ends cleanly, `ImportDomainData` returns a nil error and a non-nil sequence of
length 0. -/
theorem C7_header_only (ord : MapOrder) (fs : FileSystem) (ci : Importer) (line : GoString)
    (hp : ci.path ≠ []) (ho : fs.Open ci.path = .ok ⟨[line], none⟩) :
    (ImportDomainData ord fs ci).outcome = .returned (some []) none := by
  rw [import_of_clean_stream ord fs ci line [] hp ho]
  show ImportOutcome.returned (some (finalize ord [])) none = _
  rw [finalize_nil]

/-- C7 at a concrete input: a file holding only the header line. -/
theorem C7_header_only_csv :
    csvImporter.path ≠ [] ∧
      (ImportDomainData reverseOrder (csvFile [headerLine] none) csvImporter).outcome =
        .returned (some []) none :=
  ⟨csvImporter_path_ne,
    C7_header_only reverseOrder (csvFile [headerLine] none) csvImporter headerLine
      csvImporter_path_ne (csvFile_Open _ _)⟩

/-- The header on a delivered stream: two streams that differ only in their first delivered
line give the same result. -/
theorem header_ignored_on_stream (ord₁ ord₂ : MapOrder) (fs fs' : FileSystem) (ci : Importer)
    (header header' : GoString) (rest : List GoString) (failure : Option GoString)
    (hp : ci.path ≠ [])
    (ho : fs.Open ci.path = .ok ⟨header :: rest, failure⟩)
    (ho' : fs'.Open ci.path = .ok ⟨header' :: rest, failure⟩) :
    ImportDomainData ord₁ fs ci = ImportDomainData ord₂ fs' ci := by
  rw [import_order_irrelevant ord₁ ord₂ fs ci]
  cases failure with
  | some e =>
    rw [import_of_failed_stream ord₂ fs ci header rest e hp ho,
      import_of_failed_stream ord₂ fs' ci header' rest e hp ho']
  | none =>
    rw [import_of_clean_stream ord₂ fs ci header rest hp ho,
      import_of_clean_stream ord₂ fs' ci header' rest hp ho']

/-- C9 (determinism). Two runs of `ImportDomainData` over the same file system and importer
give identical results whatever enumeration order each run meets when it ranges over the
counter map; and for the map left by the scan loop, any two enumerations (permutations) of
its entries are copied out and sorted to the same sequence. -/
theorem C9_deterministic (ord₁ ord₂ : MapOrder) (fs : FileSystem) (ci : Importer)
    (dataLines : List GoString) (st : ScanState) (l₁ l₂ : GoMap)
    (hs : scanLines dataLines initialState = some st)
    (h₁ : l₁.Perm st.domainCounts) (h₂ : l₂.Perm st.domainCounts) :
    ImportDomainData ord₁ fs ci = ImportDomainData ord₂ fs ci ∧
      SortFunc byDomain (l₁.map toDomainData) = SortFunc byDomain (l₂.map toDomainData) := by
  refine ⟨import_order_irrelevant ord₁ ord₂ fs ci, ?_⟩
  obtain ⟨st', hs', hc⟩ := scanLines_initial dataLines
  rw [hs] at hs'
  injection hs' with hst
  subst hst
  apply SortFunc_perm_irrelevant _ _ ((h₁.trans h₂.symm).map toDomainData)
  have hp := (h₂.map toDomainData).map DomainData.Domain
  rw [map_Domain_toDomainData st.domainCounts] at hp
  rw [hp.nodup_iff, hc]
  exact scannedCounts_nodup dataLines

/-- C9 at a concrete input: for the rows of scenario A, enumerating the counter map in
insertion order or in reverse order gives the same sorted sequence and the same result. -/
theorem C9_scenario_orders :
    scanLines scenarioA initialState =
        some ⟨[(ascii "example.com", 2), (ascii "other.com", 1)], 3, 3, 0⟩ ∧
      (ImportDomainData insertionOrder (csvFile (headerLine :: scenarioA) none) csvImporter =
          ImportDomainData reverseOrder (csvFile (headerLine :: scenarioA) none) csvImporter ∧
        SortFunc byDomain
            ([(ascii "example.com", 2), (ascii "other.com", 1)].map toDomainData) =
          SortFunc byDomain
            ([(ascii "other.com", 1), (ascii "example.com", 2)].map toDomainData)) :=
  ⟨by decide,
    C9_deterministic insertionOrder reverseOrder (csvFile (headerLine :: scenarioA) none)
      csvImporter scenarioA ⟨[(ascii "example.com", 2), (ascii "other.com", 1)], 3, 3, 0⟩
      [(ascii "example.com", 2), (ascii "other.com", 1)]
      [(ascii "other.com", 1), (ascii "example.com", 2)]
      (by decide) (List.Perm.refl _) (List.Perm.swap _ _ _)⟩

/-- C10 (read errors discard partial results). If the line source reports a read error after
the header and after any number of data lines, valid ones included, `ImportDomainData`
returns the read error and a nil slice, never a partial sequence. -/
theorem C10_read_error_discards (ord : MapOrder) (fs : FileSystem) (ci : Importer)
    (header : GoString) (dataLines : List GoString) (e : GoString)
    (hp : ci.path ≠ [])
    (ho : fs.Open ci.path = .ok ⟨header :: dataLines, some e⟩) :
    (ImportDomainData ord fs ci).outcome = .returned none (some (.readFailed ci.path e)) := by
  rw [import_of_failed_stream ord fs ci header dataLines e hp ho]

/-- C10 at a concrete input: the three valid rows of scenario A are read and counted, then
the scanner reports an error; nothing of the counts is returned. -/
theorem C10_scenario_read_error :
    csvImporter.path ≠ [] ∧
      (ImportDomainData insertionOrder
          (csvFile (headerLine :: scenarioA) (some (ascii "read error"))) csvImporter).outcome =
        .returned none (some (.readFailed csvPath (ascii "read error"))) :=
  ⟨csvImporter_path_ne,
    C10_read_error_discards insertionOrder _ csvImporter headerLine scenarioA
      (ascii "read error") csvImporter_path_ne (csvFile_Open _ _)⟩

/-! ## Bounds of the index and slice expressions -/

theorem sliceFrom_append (l d : GoString) (c : Nat) :
    sliceFrom (l ++ c :: d) ((l.length : Int) + 1) = some d := by
  unfold sliceFrom
  have hb : 0 ≤ (l.length : Int) + 1 ∧
      (l.length : Int) + 1 ≤ ((l ++ c :: d).length : Int) := by
    simp only [List.length_append, List.length_cons, Nat.cast_add, Nat.cast_one]
    omega
  have ht : ((l.length : Int) + 1).toNat = l.length + 1 := by omega
  rw [if_pos hb, ht]
  simp

theorem import_never_panics (ord : MapOrder) (fs : FileSystem) (ci : Importer) :
    (ImportDomainData ord fs ci).outcome ≠ .panicked := by
  by_cases hp : ci.path = []
  · simp [ImportDomainData, hp]
  · cases ho : fs.Open ci.path with
    | error e => simp [ImportDomainData, hp, ho]
    | ok stream =>
      obtain ⟨lines, failure⟩ := stream
      cases lines with
      | nil => cases failure <;> simp [ImportDomainData, hp, ho]
      | cons header dataLines =>
        cases failure with
        | some e =>
          rw [import_of_failed_stream ord fs ci header dataLines e hp ho]
          simp
        | none =>
          rw [import_of_clean_stream ord fs ci header dataLines hp ho]
          simp

/-- C11 (configuration error before any I/O). For the importer built with the empty path,
whatever the file system and the map enumeration order, `ImportDomainData` returns a nil
slice and the empty-path error, and hands no path to `os.Open`. -/
theorem C11_empty_path_before_io (ord : MapOrder) (fs : FileSystem) :
    ImportDomainData ord fs (NewCustomerImporter []) =
      { outcome := .returned none (some .emptyPath), opened := [] } := by
  simp [ImportDomainData, NewCustomerImporter]

/-- C19 (indexing is safe, the defensive re-check is unreachable). For every data line:
when the split has at least three fields the access `fields[2]` is in range; when the
separator test on line 86 lets the email through, `0 < atIndex < len(email) - 1`, the slice
`email[atIndex+1:]` is in range and non-empty, and the line is counted for it; so the
iteration never panics and never takes the `domain == ""` branch, and `ImportDomainData` as
a whole never panics. -/
theorem C19_indexing_safe (line : GoString) :
    (¬ (Split line comma).length < 3 →
      ∃ email, (Split line comma).get? 2 = some email ∧
        (¬ (IndexByte email atSign = -1 ∨ IndexByte email atSign = 0 ∨
              IndexByte email atSign = (email.length : Int) - 1) →
          0 < IndexByte email atSign ∧ IndexByte email atSign < (email.length : Int) - 1 ∧
            ∃ domain, sliceFrom email (IndexByte email atSign + 1) = some domain ∧
              domain ≠ [] ∧ processLine line = .counted domain)) ∧
      processLine line ≠ .panic ∧ processLine line ≠ .emptyDomain ∧
      (∀ st : ScanState, ∃ st', scanStep st line = some st') ∧
      (∀ (ord : MapOrder) (fs : FileSystem) (ci : Importer),
        (ImportDomainData ord fs ci).outcome ≠ .panicked) := by
  refine ⟨fun hlen => ?_, (processLine_safe line).1, (processLine_safe line).2,
    fun st => ?_, import_never_panics⟩
  · have hlt : 2 < (Split line comma).length := by omega
    have hg : (Split line comma).get? 2 = some ((Split line comma).get ⟨2, hlt⟩) :=
      List.get?_eq_get hlt
    refine ⟨_, hg, fun hchk => ?_⟩
    generalize (Split line comma).get ⟨2, hlt⟩ = email at hg hchk ⊢
    rcases IndexByte_decomp email atSign with ⟨_, hi⟩ | ⟨l, d, hs, hl, hi⟩
    · exact absurd (Or.inl hi) hchk
    · have hl0 : l ≠ [] := by
        intro h0
        apply hchk
        right
        left
        rw [hi, h0]
        rfl
      have hd0 : d ≠ [] := by
        intro h0
        apply hchk
        right
        right
        rw [hi, hs, h0]
        simp
      have h1 : 0 < l.length := List.length_pos.2 hl0
      have h2 : 0 < d.length := List.length_pos.2 hd0
      have hlen' : (email.length : Int) = l.length + 1 + d.length := by
        rw [hs]
        simp only [List.length_append, List.length_cons, Nat.cast_add, Nat.cast_one]
        omega
      refine ⟨by omega, by omega, d, ?_, hd0, ?_⟩
      · rw [hi, hs]
        exact sliceFrom_append l d atSign
      · rw [processLine_eq, hg]
        show emailOutcome email = _
        rw [hs, emailOutcome_decomp l d hl]
        simp [hl0, hd0]
  · obtain ⟨st', h, _⟩ := scanStep_counts st line
    exact ⟨st', h⟩

/-- C19 at a concrete line: in `1,Foo,a@example.com` the third field is read in range, the
separator is at index 1 of 13, and the slice from index 2 is `example.com`. -/
theorem C19_scenario_line :
    (Split (ascii "1,Foo,a@example.com") comma).get? 2 = some (ascii "a@example.com") ∧
      0 < IndexByte (ascii "a@example.com") atSign ∧
      IndexByte (ascii "a@example.com") atSign < ((ascii "a@example.com").length : Int) - 1 ∧
      sliceFrom (ascii "a@example.com") (IndexByte (ascii "a@example.com") atSign + 1) =
        some (ascii "example.com") := by
  obtain ⟨email, hg, h⟩ := (C19_indexing_safe (ascii "1,Foo,a@example.com")).1 (by decide)
  have he : email = ascii "a@example.com" := by
    have hg' : (Split (ascii "1,Foo,a@example.com") comma).get? 2 =
        some (ascii "a@example.com") := by decide
    rw [hg'] at hg
    injection hg with hg
    exact hg.symm
  subst he
  obtain ⟨h1, h2, domain, h3, _, _⟩ := h (by decide)
  refine ⟨by decide, h1, h2, ?_⟩
  rw [h3]
  have h3' : sliceFrom (ascii "a@example.com")
      (IndexByte (ascii "a@example.com") atSign + 1) = some (ascii "example.com") := by decide
  rw [h3'] at h3
  exact h3.symm

/-! ## Splitting a rendered line, decimal round trip -/

theorem Split_of_no_sep (s : GoString) (sep : Nat) (h : sep ∉ s) : Split s sep = [s] := by
  induction s with
  | nil => rfl
  | cons c cs ih =>
    simp only [List.mem_cons, not_or] at h
    have hc : ¬ c = sep := fun e => h.1 e.symm
    simp [Split, hc, ih h.2]

theorem Split_append_sep (a b : GoString) (sep : Nat) (h : sep ∉ a) :
    Split (a ++ sep :: b) sep = a :: Split b sep := by
  induction a with
  | nil => simp [Split]
  | cons c cs ih =>
    simp only [List.mem_cons, not_or] at h
    have hc : ¬ c = sep := fun e => h.1 e.symm
    simp [Split, hc, ih h.2]

theorem formatDigits_parse (fuel : Nat) :
    ∀ (n : Nat) (acc : GoString), n < fuel →
      parseDigits (formatDigits fuel n acc) 0 = parseDigits acc n := by
  induction fuel with
  | zero => intro n acc h; omega
  | succ fuel ih =>
    intro n acc h
    unfold formatDigits
    by_cases hn : n < 10
    · have h1 : 48 ≤ 48 + n ∧ 48 + n ≤ 57 := by omega
      simp only [hn, if_true, parseDigits, h1, and_self]
      congr 1
      omega
    · have h1 : 48 ≤ 48 + n % 10 ∧ 48 + n % 10 ≤ 57 := by omega
      rw [if_neg hn, ih (n / 10) _ (by omega)]
      simp only [parseDigits, h1, and_self, if_true]
      congr 1
      omega

theorem formatDigits_mem (fuel : Nat) :
    ∀ (n : Nat) (acc : GoString), n < fuel →
      ∀ c ∈ formatDigits fuel n acc, (48 ≤ c ∧ c ≤ 57) ∨ c ∈ acc := by
  induction fuel with
  | zero => intro n acc h; omega
  | succ fuel ih =>
    intro n acc h c hc
    unfold formatDigits at hc
    by_cases hn : n < 10
    · rw [if_pos hn] at hc
      rcases List.mem_cons.1 hc with h1 | h1
      · left
        omega
      · exact Or.inr h1
    · rw [if_neg hn] at hc
      rcases ih (n / 10) _ (by omega) c hc with h1 | h1
      · exact Or.inl h1
      · rcases List.mem_cons.1 h1 with h2 | h2
        · left
          omega
        · exact Or.inr h2

theorem formatDigits_ne_nil (fuel : Nat) :
    ∀ (n : Nat) (acc : GoString), n < fuel → formatDigits fuel n acc ≠ [] := by
  induction fuel with
  | zero => intro n acc h; omega
  | succ fuel ih =>
    intro n acc h
    unfold formatDigits
    by_cases hn : n < 10
    · simp [hn]
    · rw [if_neg hn]
      exact ih (n / 10) _ (by omega)

theorem parseUint_FormatUint (v : Nat) : parseUint (FormatUint v) = some v := by
  unfold parseUint FormatUint
  rw [if_neg (formatDigits_ne_nil (v + 1) v [] (by omega)),
    formatDigits_parse (v + 1) v [] (by omega)]
  rfl

theorem comma_not_mem_FormatUint (v : Nat) : comma ∉ FormatUint v := by
  intro h
  rcases formatDigits_mem (v + 1) v [] (by omega) comma h with h1 | h1
  · unfold comma at h1
    omega
  · cases h1

theorem parseTerminalLine_render (d : GoString) (q : Nat) (h : comma ∉ d) :
    Split (d ++ comma :: FormatUint q) comma = [d, FormatUint q] ∧
      parseTerminalLine (d ++ comma :: FormatUint q) = some ⟨d, q⟩ := by
  have hs : Split (d ++ comma :: FormatUint q) comma = [d, FormatUint q] := by
    rw [Split_append_sep d _ comma h, Split_of_no_sep _ comma (comma_not_mem_FormatUint q)]
  refine ⟨hs, ?_⟩
  unfold parseTerminalLine
  rw [hs]
  simp [parseUint_FormatUint]

theorem counted_domain_no_comma (line d : GoString) (h : processLine line = .counted d) :
    comma ∉ d := by
  obtain ⟨_, l, hg, _, _, _⟩ := (processLine_counted_iff line d).1 h
  have hmem : (l ++ atSign :: d) ∈ Split line comma := List.get?_mem hg
  have hno := Split_no_sep line comma _ hmem
  intro hc
  exact hno (by simp [hc])

/-- C17 (extracted domains never contain the field delimiter). Whenever `ImportDomainData`
succeeds, no returned `Domain` contains `,`; hence the terminal line printed for an entry,
`Domain ++ "," ++ count` followed by a newline, splits on `,` into exactly the two fields
`Domain` and the decimal count, and reading it back gives the same entry. -/
theorem C17_domains_without_comma (ord : MapOrder) (fs : FileSystem) (ci : Importer)
    (data : List DomainData)
    (h : (ImportDomainData ord fs ci).outcome = .returned (some data) none) :
    ∀ e ∈ data, comma ∉ e.Domain ∧
      PrintfEntry [] e = (e.Domain ++ comma :: FormatUint e.CustomerQuantity) ++ [newline] ∧
      Split (e.Domain ++ comma :: FormatUint e.CustomerQuantity) comma =
        [e.Domain, FormatUint e.CustomerQuantity] ∧
      parseTerminalLine (e.Domain ++ comma :: FormatUint e.CustomerQuantity) = some e := by
  obtain ⟨header, dataLines, _, _, hd⟩ := import_success_inv ord fs ci data h
  subst hd
  intro e he
  rw [mem_finalize, mem_scannedCounts] at he
  obtain ⟨⟨line, _, hproc⟩, _⟩ := he
  have hno := counted_domain_no_comma line e.Domain hproc
  have hr := parseTerminalLine_render e.Domain e.CustomerQuantity hno
  exact ⟨hno, by simp [PrintfEntry], hr.1, hr.2⟩

/-- C17 at a concrete input: the entry `("example.com", 2)` returned for scenario A is
printed as `example.com,2`, which splits into two fields and reads back as the entry. -/
theorem C17_scenario_line :
    (ImportDomainData insertionOrder (csvFile (headerLine :: scenarioA) none)
        csvImporter).outcome =
        .returned (some [⟨ascii "example.com", 2⟩, ⟨ascii "other.com", 1⟩]) none ∧
      comma ∉ ascii "example.com" ∧
      ascii "example.com" ++ comma :: FormatUint 2 = ascii "example.com,2" ∧
      Split (ascii "example.com" ++ comma :: FormatUint 2) comma =
        [ascii "example.com", ascii "2"] ∧
      parseTerminalLine (ascii "example.com" ++ comma :: FormatUint 2) =
        some ⟨ascii "example.com", 2⟩ := by
  have hout : (ImportDomainData insertionOrder (csvFile (headerLine :: scenarioA) none)
      csvImporter).outcome =
        .returned (some [⟨ascii "example.com", 2⟩, ⟨ascii "other.com", 1⟩]) none := by decide
  have h := C17_domains_without_comma insertionOrder _ csvImporter _ hout
    ⟨ascii "example.com", 2⟩ (by simp)
  exact ⟨hout, h.1, by decide, h.2.2.1, h.2.2.2⟩

/-! ## Sharded counting -/

theorem validCount_pos_iff (lines : List GoString) (d : GoString) :
    0 < validCount lines d ↔ ∃ line ∈ lines, processLine line = .counted d := by
  unfold validCount
  rw [List.countP_pos_iff]
  simp

theorem mem_scannedCounts_iff (lines : List GoString) (d : GoString) (v : Nat) :
    (d, v) ∈ scannedCounts lines ↔
      0 < validCount lines d ∧ v = validCount lines d % uint64Size := by
  rw [mem_scannedCounts, validCount_pos_iff]

theorem finalize_congr (ord₁ ord₂ : MapOrder) (m₁ m₂ : GoMap)
    (h₁ : (mapKeys m₁).Nodup) (h₂ : (mapKeys m₂).Nodup)
    (h : ∀ e, e ∈ m₁ ↔ e ∈ m₂) : finalize ord₁ m₁ = finalize ord₂ m₂ := by
  have hp : m₁.Perm m₂ :=
    (List.perm_ext_iff_of_nodup (List.Nodup.of_map _ h₁) (List.Nodup.of_map _ h₂)).2 h
  exact SortFunc_perm_irrelevant _ _
    (((copyOut_perm ord₁ m₁).trans (hp.map toDomainData)).trans (copyOut_perm ord₂ m₂).symm)
    (copyOut_nodup ord₂ m₂ h₂)

theorem scannedCounts_perm (ord₁ ord₂ : MapOrder) (l₁ l₂ : List GoString)
    (h : l₁.Perm l₂) :
    finalize ord₁ (scannedCounts l₁) = finalize ord₂ (scannedCounts l₂) := by
  apply finalize_congr _ _ _ _ (scannedCounts_nodup l₁) (scannedCounts_nodup l₂)
  rintro ⟨d, v⟩
  have hc : validCount l₁ d = validCount l₂ d := by
    unfold validCount
    exact h.countP_eq _
  rw [mem_scannedCounts_iff, mem_scannedCounts_iff, hc]

theorem mapKeys_mergeCounts_nodup (add : Nat → Nat → Nat) (s : List DomainData) (m : GoMap)
    (h : (mapKeys m).Nodup) : (mapKeys (mergeCounts add m s)).Nodup := by
  unfold mergeCounts
  induction s generalizing m with
  | nil => simpa using h
  | cons e rest ih =>
    rw [List.foldl_cons]
    exact ih _ (mapKeys_mapStore_nodup m e.Domain _ h)

theorem mem_mapKeys_mergeCounts (add : Nat → Nat → Nat) (s : List DomainData) (m : GoMap)
    (k : GoString) :
    k ∈ mapKeys (mergeCounts add m s) ↔ k ∈ mapKeys m ∨ k ∈ s.map DomainData.Domain := by
  unfold mergeCounts
  induction s generalizing m with
  | nil => simp
  | cons e rest ih =>
    rw [List.foldl_cons, ih, mem_mapKeys_mapStore]
    simp only [List.map_cons, List.mem_cons]
    tauto

theorem mapLoad_mergeCounts (add : Nat → Nat → Nat) (s : List DomainData) (m : GoMap)
    (d : GoString) :
    mapLoad (mergeCounts add m s) d =
      (s.filter (fun e => decide (e.Domain = d))).foldl
        (fun x e => add x e.CustomerQuantity) (mapLoad m d) := by
  unfold mergeCounts
  induction s generalizing m with
  | nil => rfl
  | cons e rest ih =>
    rw [List.foldl_cons, ih, mapLoad_mapStore]
    by_cases hd : e.Domain = d
    · subst hd
      simp [List.filter_cons]
    · have hd' : ¬ d = e.Domain := fun h => hd h.symm
      simp [List.filter_cons, hd, hd']

theorem filter_finalize_scanned (ord : MapOrder) (lines : List GoString) (d : GoString) :
    (finalize ord (scannedCounts lines)).filter (fun e => decide (e.Domain = d)) =
      if validCount lines d = 0 then []
      else [⟨d, validCount lines d % uint64Size⟩] := by
  by_cases hz : validCount lines d = 0
  · rw [if_pos hz, List.filter_eq_nil_iff]
    intro e he hed
    have hed' : e.Domain = d := by simpa using hed
    rw [mem_finalize, mem_scannedCounts_iff, hed'] at he
    exact Nat.lt_irrefl 0 (hz ▸ he.1)
  · rw [if_neg hz]
    have hin : (⟨d, validCount lines d % uint64Size⟩ : DomainData) ∈
        finalize ord (scannedCounts lines) := by
      rw [mem_finalize, mem_scannedCounts_iff]
      exact ⟨Nat.pos_of_ne_zero hz, rfl⟩
    exact filter_domain_eq_singleton _ _
      (finalize_nodup ord _ (scannedCounts_nodup lines)) hin

theorem mem_domains_finalize_scanned (ord : MapOrder) (lines : List GoString)
    (d : GoString) :
    d ∈ (finalize ord (scannedCounts lines)).map DomainData.Domain ↔
      0 < validCount lines d := by
  rw [List.mem_map]
  constructor
  · rintro ⟨e, he, hed⟩
    rw [mem_finalize, mem_scannedCounts_iff, hed] at he
    exact he.1
  · intro h
    refine ⟨⟨d, validCount lines d % uint64Size⟩, ?_, rfl⟩
    rw [mem_finalize, mem_scannedCounts_iff]
    exact ⟨h, rfl⟩

theorem merge_eq_sequential (add : Nat → Nat → Nat) (ord ord₁ ord₂ ord₃ : MapOrder)
    (xs ys : List GoString)
    (hadd : ∀ x y, x ≤ xs.length → y ≤ ys.length →
      add 0 (x % uint64Size) = x % uint64Size ∧
        add (x % uint64Size) (y % uint64Size) = (x + y) % uint64Size) :
    mergeShards add ord₃ (finalize ord₁ (scannedCounts xs)) (finalize ord₂ (scannedCounts ys)) =
      finalize ord (scannedCounts (xs ++ ys)) := by
  unfold mergeShards
  apply finalize_congr
  · exact mapKeys_mergeCounts_nodup _ _ _ (mapKeys_mergeCounts_nodup _ _ _ (by simp [mapKeys]))
  · exact scannedCounts_nodup _
  rintro ⟨d, v⟩
  rw [mem_map_iff_mapLoad _ _ _
    (mapKeys_mergeCounts_nodup _ _ _ (mapKeys_mergeCounts_nodup _ _ _ (by simp [mapKeys]))),
    mem_mapKeys_mergeCounts, mem_mapKeys_mergeCounts, mapLoad_mergeCounts,
    mapLoad_mergeCounts, filter_finalize_scanned, filter_finalize_scanned,
    mem_domains_finalize_scanned, mem_domains_finalize_scanned, mem_scannedCounts_iff]
  have hc : validCount (xs ++ ys) d = validCount xs d + validCount ys d := by
    unfold validCount
    exact List.countP_append _ _ _
  have hx : validCount xs d ≤ xs.length := by
    unfold validCount
    exact List.countP_le_length _
  have hy : validCount ys d ≤ ys.length := by
    unfold validCount
    exact List.countP_le_length _
  have h0 : mapLoad [] d = 0 := rfl
  have hk : ¬ d ∈ mapKeys [] := by simp [mapKeys]
  rw [hc, h0]
  obtain ⟨ha1, ha2⟩ := hadd (validCount xs d) (validCount ys d) hx hy
  have hb1 := (hadd 0 (validCount ys d) (Nat.zero_le _) hy).1
  by_cases hxz : validCount xs d = 0
  · by_cases hyz : validCount ys d = 0
    · simp [hxz, hyz, hk]
    · have hy1 : add 0 (validCount ys d % uint64Size) = validCount ys d % uint64Size := by
        have := (hadd 0 (validCount ys d) (Nat.zero_le _) hy).2
        simpa using this
      simp only [hxz, hyz, if_true, if_false, List.foldl_nil, List.foldl_cons, hy1, zero_add,
        hk, false_or, lt_self_iff_false]
      constructor
      · rintro ⟨h1, h2⟩
        exact ⟨by omega, h2.symm⟩
      · rintro ⟨_, h2⟩
        exact ⟨by omega, h2.symm⟩
  · by_cases hyz : validCount ys d = 0
    · simp only [hxz, hyz, if_true, if_false, List.foldl_nil, List.foldl_cons, ha1, add_zero,
        hk, false_or, lt_self_iff_false, or_false]
      constructor
      · rintro ⟨h1, h2⟩
        exact ⟨h1, h2.symm⟩
      · rintro ⟨h1, h2⟩
        exact ⟨h1, h2.symm⟩
    · simp only [hxz, hyz, if_false, List.foldl_nil, List.foldl_cons, ha1, ha2, hk, false_or]
      constructor
      · rintro ⟨_, h2⟩
        exact ⟨by omega, h2.symm⟩
      · rintro ⟨_, h2⟩
        exact ⟨by omega, h2.symm⟩

theorem uint64Add_merges (x y : Nat) :
    uint64Add 0 (x % uint64Size) = x % uint64Size ∧
      uint64Add (x % uint64Size) (y % uint64Size) = (x + y) % uint64Size := by
  unfold uint64Add
  constructor
  · simp
  · exact (Nat.add_mod x y uint64Size).symm

theorem csvOutcome_eq (ord : MapOrder) (header : GoString) (dataLines : List GoString) :
    csvOutcome ord header dataLines =
      .returned (some (finalize ord (scannedCounts dataLines))) none := by
  unfold csvOutcome
  rw [import_of_clean_stream ord _ csvImporter header dataLines csvImporter_path_ne
    (csvFile_Open _ _)]

/-- Shard merge on delivered streams: when the scanner delivers all the lines and ends
cleanly, the result on `xs ++ ys` is the merge of the results on `xs` and on `ys`, and it is
the same for every permutation of the lines. -/
theorem shard_merge_on_stream (ord ord₁ ord₂ ord₃ : MapOrder) (h : GoString)
    (xs ys lines : List GoString) (hperm : lines.Perm (xs ++ ys)) :
    ∃ dx dy,
      csvOutcome ord₁ h xs = .returned (some dx) none ∧
      csvOutcome ord₂ h ys = .returned (some dy) none ∧
      csvOutcome ord h (xs ++ ys) =
        .returned (some (mergeShards uint64Add ord₃ dx dy)) none ∧
      (xs.length + ys.length < uint64Size →
        mergeShards (fun x y => x + y) ord₃ dx dy = mergeShards uint64Add ord₃ dx dy) ∧
      csvOutcome ord h lines = csvOutcome ord h (xs ++ ys) := by
  refine ⟨finalize ord₁ (scannedCounts xs), finalize ord₂ (scannedCounts ys),
    csvOutcome_eq _ _ _, csvOutcome_eq _ _ _, ?_, fun hlen => ?_, ?_⟩
  · rw [csvOutcome_eq, merge_eq_sequential uint64Add ord ord₁ ord₂ ord₃ xs ys
      (fun x y _ _ => uint64Add_merges x y)]
  · rw [merge_eq_sequential uint64Add ord ord₁ ord₂ ord₃ xs ys
      (fun x y _ _ => uint64Add_merges x y)]
    apply merge_eq_sequential (fun x y => x + y) ord ord₁ ord₂ ord₃ xs ys
    intro x y hx hy
    have hx' : x < uint64Size := by omega
    have hy' : y < uint64Size := by omega
    have hxy : x + y < uint64Size := by omega
    rw [Nat.mod_eq_of_lt hx', Nat.mod_eq_of_lt hy', Nat.mod_eq_of_lt hxy]
    exact ⟨Nat.zero_add x, rfl⟩
  · rw [csvOutcome_eq, csvOutcome_eq, scannedCounts_perm ord ord lines (xs ++ ys) hperm]

/-! ## Conservation of counts -/

theorem mapKeys_scannedCounts_perm (lines : List GoString) :
    (mapKeys (scannedCounts lines)).Perm (extractedDomains lines).dedup := by
  apply (List.perm_ext_iff_of_nodup (scannedCounts_nodup lines)
    (List.nodup_dedup (extractedDomains lines))).2
  intro k
  unfold scannedCounts
  rw [mem_mapKeys_foldl_mapIncr, List.mem_dedup]
  simp [mapKeys]

theorem length_finalize_scanned (ord : MapOrder) (lines : List GoString) :
    (finalize ord (scannedCounts lines)).length = (extractedDomains lines).dedup.length := by
  rw [(finalize_perm ord _).length_eq, List.length_map,
    ← (mapKeys_scannedCounts_perm lines).length_eq]
  simp [mapKeys]

theorem sum_finalize_scanned (ord : MapOrder) (lines : List GoString) :
    ((finalize ord (scannedCounts lines)).map DomainData.CustomerQuantity).sum =
      ((extractedDomains lines).dedup.map
        (fun d => validCount lines d % uint64Size)).sum := by
  have h1 : ((finalize ord (scannedCounts lines)).map DomainData.CustomerQuantity).Perm
      (((scannedCounts lines).map toDomainData).map DomainData.CustomerQuantity) :=
    (finalize_perm ord _).map _
  rw [h1.sum_eq, List.map_map]
  have h2 : (scannedCounts lines).map (DomainData.CustomerQuantity ∘ toDomainData) =
      (mapKeys (scannedCounts lines)).map (fun d => validCount lines d % uint64Size) := by
    unfold mapKeys
    rw [List.map_map]
    apply List.map_congr_left
    rintro ⟨d, v⟩ he
    exact ((mem_scannedCounts_iff lines d v).1 he).2
  rw [h2]
  exact ((mapKeys_scannedCounts_perm lines).map _).sum_eq

theorem sum_finalize_scanned_exact (ord : MapOrder) (lines : List GoString)
    (h : lines.length < uint64Size) :
    ((finalize ord (scannedCounts lines)).map DomainData.CustomerQuantity).sum =
      (extractedDomains lines).length := by
  rw [sum_finalize_scanned]
  have hc : (extractedDomains lines).dedup.map (fun d => validCount lines d % uint64Size) =
      (extractedDomains lines).dedup.map (fun d => (extractedDomains lines).count d) := by
    apply List.map_congr_left
    intro d _
    have hle : validCount lines d ≤ lines.length := by
      unfold validCount
      exact List.countP_le_length _
    show validCount lines d % uint64Size = _
    rw [Nat.mod_eq_of_lt (by omega), count_extractedDomains]
  rw [hc, ← List.sum_map_count_dedup_eq_length (extractedDomains lines)]
  congr 1
  apply List.map_congr_left
  intro d _
  unfold List.count
  apply List.countP_congr
  intro x _
  simp

theorem intInc_of_small (x : Int) (h0 : 0 ≤ x) (h1 : x + 1 < 2 ^ 63) : intInc x = x + 1 := by
  unfold intInc
  norm_num at h1 ⊢
  omega

theorem intInc_iterate (n : Nat) (h : (n : Int) < 2 ^ 63) :
    Nat.iterate intInc n 0 = (n : Int) := by
  induction n with
  | zero => rfl
  | succ n ih =>
    rw [Function.iterate_succ_apply', ih (by push_cast at h; omega),
      intInc_of_small _ (by omega) (by push_cast at h; omega)]
    push_cast
    rfl

theorem scanStep_validEmails (st : ScanState) (line : GoString) :
    ∃ st', scanStep st line = some st' ∧
      st'.validEmails =
        match lineDomain line with
        | some _ => intInc st.validEmails
        | none => st.validEmails := by
  have hsafe := (processLine_safe line).1
  unfold scanStep lineDomain
  cases hp : processLine line with
  | panic => exact absurd hp hsafe
  | counted d => exact ⟨_, rfl, rfl⟩
  | tooFewFields => exact ⟨_, rfl, rfl⟩
  | badSeparator => exact ⟨_, rfl, rfl⟩
  | emptyDomain => exact ⟨_, rfl, rfl⟩

theorem scanLines_validEmails (lines : List GoString) (st : ScanState) :
    ∃ st', scanLines lines st = some st' ∧
      st'.validEmails = Nat.iterate intInc (extractedDomains lines).length st.validEmails := by
  induction lines generalizing st with
  | nil => exact ⟨st, rfl, rfl⟩
  | cons x xs ih =>
    obtain ⟨st1, h1, hv1⟩ := scanStep_validEmails st x
    obtain ⟨st2, h2, hv2⟩ := ih st1
    refine ⟨st2, by simp [scanLines, h1, h2], ?_⟩
    rw [hv2, hv1]
    unfold extractedDomains
    cases hl : lineDomain x with
    | none => rw [List.filterMap_cons_none hl]
    | some d =>
      rw [List.filterMap_cons_some hl, List.length_cons, Function.iterate_succ_apply]

theorem extractedDomains_flatten_replicate (n : Nat) (block : List GoString) :
    extractedDomains (List.replicate n block).flatten =
      (List.replicate n (extractedDomains block)).flatten := by
  unfold extractedDomains
  induction n with
  | zero => rfl
  | succ n ih =>
    rw [List.replicate_succ, List.flatten_cons, List.filterMap_append, ih,
      List.replicate_succ, List.flatten_cons]

theorem dedup_flatten_replicate_length (n : Nat) (l : List GoString) (hn : n ≠ 0)
    (hl : l.Nodup) : (List.replicate n l).flatten.dedup.length = l.length := by
  apply List.Perm.length_eq
  apply (List.perm_ext_iff_of_nodup (List.nodup_dedup _) hl).2
  intro x
  rw [List.mem_dedup, List.mem_flatten]
  constructor
  · rintro ⟨l', hl', hx⟩
    rw [List.mem_replicate] at hl'
    rw [← hl'.2]
    exact hx
  · intro hx
    exact ⟨l, List.mem_replicate.2 ⟨hn, rfl⟩, hx⟩

theorem length_flatten_replicate (n : Nat) (l : List GoString) :
    (List.replicate n l).flatten.length = n * l.length := by
  induction n with
  | zero => simp
  | succ n ih =>
    rw [List.replicate_succ, List.flatten_cons, List.length_append, ih]
    ring

theorem scenarioCBlock_domains :
    (extractedDomains scenarioCBlock).Nodup ∧ (extractedDomains scenarioCBlock).length = 100 ∧
      scenarioCBlock.length = 100 := by
  decide

/-- C16 (conservation of counts, amended for the wrapping counters). For every input made of
a header and data lines on which `ImportDomainData` succeeds: the number of entries returned
equals the number of distinct domains extracted from valid data lines; the sum of
`CustomerQuantity` over the entries is the sum, over those domains, of the number of valid
lines bearing the domain reduced modulo `2^64`; with fewer than `2^64` data lines that sum
equals the number of valid data lines; and with fewer than `2^63` data lines it also equals
the final value of `validEmails`. -/
theorem C16_conservation (ord : MapOrder) (fs : FileSystem) (ci : Importer)
    (header : GoString) (dataLines : List GoString) (data : List DomainData)
    (ho : fs.Open ci.path = .ok ⟨header :: dataLines, none⟩)
    (h : (ImportDomainData ord fs ci).outcome = .returned (some data) none) :
    data.length = (extractedDomains dataLines).dedup.length ∧
      (data.map DomainData.CustomerQuantity).sum =
        ((extractedDomains dataLines).dedup.map
          (fun d => validCount dataLines d % uint64Size)).sum ∧
      (dataLines.length < uint64Size →
        (data.map DomainData.CustomerQuantity).sum = (extractedDomains dataLines).length) ∧
      ∃ st, scanLines dataLines initialState = some st ∧
        (dataLines.length < 2 ^ 63 →
          st.validEmails = ((extractedDomains dataLines).length : Int) ∧
            (((data.map DomainData.CustomerQuantity).sum : Nat) : Int) = st.validEmails) := by
  obtain ⟨header', dataLines', _, ho2, hd⟩ := import_success_inv ord fs ci data h
  rw [ho] at ho2
  have hl : dataLines = dataLines' := by
    injection ho2 with h1
    injection h1 with h2 _
    injection h2
  subst hl
  subst hd
  refine ⟨length_finalize_scanned ord dataLines, sum_finalize_scanned ord dataLines,
    sum_finalize_scanned_exact ord dataLines, ?_⟩
  obtain ⟨st, hs, hv⟩ := scanLines_validEmails dataLines initialState
  refine ⟨st, hs, fun hlen => ?_⟩
  have hle : (extractedDomains dataLines).length ≤ dataLines.length := by
    unfold extractedDomains
    exact List.length_filterMap_le _ _
  have hv' : st.validEmails = ((extractedDomains dataLines).length : Int) := by
    rw [hv]
    exact intInc_iterate _ (by
      have h63 : ((2 : Int) ^ 63) = ((2 ^ 63 : Nat) : Int) := by norm_num
      rw [h63]
      exact_mod_cast lt_of_le_of_lt hle hlen)
  refine ⟨hv', ?_⟩
  rw [hv', sum_finalize_scanned_exact ord dataLines (by
    have : (2 : Nat) ^ 63 < uint64Size := by decide
    omega)]

theorem intInc_iterate_wrap (n : Nat) (h : (n : Int) + 1 = 2 ^ 63) :
    Nat.iterate intInc (n + 1) 0 = -(2 ^ 63) := by
  rw [Function.iterate_succ_apply', intInc_iterate n (by omega)]
  unfold intInc
  rw [h]
  norm_num

theorem intInc_iterate_half : Nat.iterate intInc int64Half 0 = -(2 ^ 63) := by
  have h := intInc_iterate_wrap (int64Half - 1) (by
    unfold int64Half
    norm_num)
  rwa [Nat.sub_add_cancel (by decide)] at h

/-- C16, counterexample to the claim as stated: for a header followed by `2^64` copies of
the valid row `9,Zed,z@wrap.org`, the number of valid data lines is `2^64`, while the single
entry returned has `CustomerQuantity` 0, so the counts sum to 0; and for `2^63` copies of
that row the entry holds `2^63` while the 64-bit `int` counter `validEmails` ends at
`-2^63`. -/
theorem C16_sum_wraps :
    (extractedDomains (List.replicate uint64Size (ascii "9,Zed,z@wrap.org"))).length =
        uint64Size ∧
      csvOutcome insertionOrder headerLine
          (List.replicate uint64Size (ascii "9,Zed,z@wrap.org")) =
        .returned (some [⟨ascii "wrap.org", 0⟩]) none ∧
      ([(⟨ascii "wrap.org", 0⟩ : DomainData)].map DomainData.CustomerQuantity).sum = 0 ∧
      csvOutcome insertionOrder headerLine
          (List.replicate int64Half (ascii "9,Zed,z@wrap.org")) =
        .returned (some [⟨ascii "wrap.org", int64Half⟩]) none ∧
      (scanLines (List.replicate int64Half (ascii "9,Zed,z@wrap.org")) initialState).map
          ScanState.validEmails = some (-(2 ^ 63)) := by
  refine ⟨?_, ?_, rfl, ?_, ?_⟩
  · rw [extractedDomains_replicate _ _ (ascii "wrap.org") (by decide), List.length_replicate]
  · rw [csvOutcome_eq, scannedCounts_replicate uint64Size _ (ascii "wrap.org") (by decide)
      uint64Size_pos, Nat.mod_self, finalize_singleton]
  · rw [csvOutcome_eq, scannedCounts_replicate int64Half _ (ascii "wrap.org") (by decide)
      (by decide), Nat.mod_eq_of_lt (by decide), finalize_singleton]
  · obtain ⟨st, hs, hv⟩ := scanLines_validEmails
      (List.replicate int64Half (ascii "9,Zed,z@wrap.org")) initialState
    rw [hs, Option.map_some', hv, extractedDomains_replicate _ _ (ascii "wrap.org") (by decide),
      List.length_replicate]
    exact congrArg some intInc_iterate_half

/-- C16, end-to-end scenario C: 10,000 valid rows spread over 100 distinct domains give
exactly 100 entries whose counts sum to 10,000. -/
theorem C16_scenario_C :
    scenarioC.length = 10000 ∧
      (extractedDomains scenarioC).dedup.length = 100 ∧
      (extractedDomains scenarioC).length = 10000 ∧
      csvOutcome insertionOrder headerLine scenarioC =
        .returned (some (finalize insertionOrder (scannedCounts scenarioC))) none ∧
      (finalize insertionOrder (scannedCounts scenarioC)).length = 100 ∧
      ((finalize insertionOrder (scannedCounts scenarioC)).map
        DomainData.CustomerQuantity).sum = 10000 := by
  have hlen : scenarioC.length = 10000 := by
    unfold scenarioC
    rw [length_flatten_replicate, scenarioCBlock_domains.2.2]
  have hd : (extractedDomains scenarioC).dedup.length = 100 := by
    unfold scenarioC
    rw [extractedDomains_flatten_replicate,
      dedup_flatten_replicate_length 100 _ (by decide) scenarioCBlock_domains.1,
      scenarioCBlock_domains.2.1]
  have hv : (extractedDomains scenarioC).length = 10000 := by
    unfold scenarioC
    rw [extractedDomains_flatten_replicate, length_flatten_replicate,
      scenarioCBlock_domains.2.1]
  have hout := csvOutcome_eq insertionOrder headerLine scenarioC
  have h := C16_conservation insertionOrder (csvFile (headerLine :: scenarioC) none)
    csvImporter headerLine scenarioC _ (csvFile_Open _ _) hout
  have hsmall : scenarioC.length < uint64Size := by
    rw [hlen]
    decide
  refine ⟨hlen, hd, hv, hout, ?_, ?_⟩
  · rw [h.1, hd]
  · rw [h.2.2.1 hsmall, hv]


/-! ## Terminal rendering -/

theorem foldl_PrintfEntry (data : List DomainData) (out : GoString) :
    data.foldl PrintfEntry out =
      out ++ (data.map (fun e =>
        e.Domain ++ [comma] ++ FormatUint e.CustomerQuantity ++ [newline])).flatten := by
  induction data generalizing out with
  | nil => simp
  | cons e rest ih =>
    rw [List.foldl_cons, ih]
    simp [PrintfEntry]

theorem import_success_result (ord : MapOrder) (fs : FileSystem) (ci : Importer)
    (data : Option (List DomainData))
    (h : (ImportDomainData ord fs ci).outcome = .returned data none) :
    data ≠ none ∧ (ImportDomainData ord fs ci).opened = [ci.path] := by
  by_cases hp : ci.path = []
  · simp [ImportDomainData, hp] at h
  · cases ho : fs.Open ci.path with
    | error e => simp [ImportDomainData, hp, ho] at h
    | ok stream =>
      obtain ⟨lines, failure⟩ := stream
      cases lines with
      | nil => cases failure <;> simp [ImportDomainData, hp, ho] at h
      | cons header dataLines =>
        cases failure with
        | some e =>
          rw [import_of_failed_stream ord fs ci header dataLines e hp ho] at h
          simp at h
        | none =>
          rw [import_of_clean_stream ord fs ci header dataLines hp ho] at h ⊢
          simp only [ImportOutcome.returned.injEq, and_true] at h
          refine ⟨?_, rfl⟩
          rw [← h]
          simp

/-- C14 (terminal rendering). When the import succeeds with the sequence `data` and the
output path is empty, `ProcessCustomerData` returns a nil error, hands to standard output
exactly the line `domain,number_of_customers` followed, for each entry of `data` in order,
by `Domain`, a comma and the count, each line ended by one newline, and creates no file;
the count is rendered in base 10: a run of decimal digits that reads back as the count. -/
theorem C14_terminal_rendering (ord : MapOrder) (w : World) (inputPath : GoString)
    (data : List DomainData)
    (h : (ImportDomainData ord w.input (NewCustomerImporter inputPath)).outcome =
      .returned (some data) none) :
    ProcessCustomerData ord w inputPath [] =
        { outcome := .returned none
          stdout := ascii "domain,number_of_customers" ++ [newline] ++
            (data.map (fun e =>
              e.Domain ++ [comma] ++ FormatUint e.CustomerQuantity ++ [newline])).flatten
          created := []
          opened := [inputPath] } ∧
      ∀ e ∈ data, parseUint (FormatUint e.CustomerQuantity) = some e.CustomerQuantity ∧
        ∀ c ∈ FormatUint e.CustomerQuantity, 48 ≤ c ∧ c ≤ 57 := by
  have hop := (import_success_result ord w.input _ _ h).2
  refine ⟨?_, fun e _ => ⟨parseUint_FormatUint _, fun c hc => ?_⟩⟩
  · unfold ProcessCustomerData
    simp only [h, hop, if_true, Option.getD_some, foldl_PrintfEntry, Println]
    simp [NewCustomerImporter]
  · rcases formatDigits_mem _ _ [] (by omega) c hc with h1 | h1
    · exact h1
    · cases h1

/-- C14 at a concrete input: for scenario A and an empty output path the terminal receives
the header line and the two entry lines, and no file is created. -/
theorem C14_scenario_terminal :
    (ImportDomainData reverseOrder (csvWorld (headerLine :: scenarioA) none none).input
        (NewCustomerImporter csvPath)).outcome =
        .returned (some [⟨ascii "example.com", 2⟩, ⟨ascii "other.com", 1⟩]) none ∧
      (ProcessCustomerData reverseOrder (csvWorld (headerLine :: scenarioA) none none)
        csvPath []).stdout =
        ascii "domain,number_of_customers" ++ [newline] ++
          (ascii "example.com,2" ++ [newline]) ++ (ascii "other.com,1" ++ [newline]) ∧
      (ProcessCustomerData reverseOrder (csvWorld (headerLine :: scenarioA) none none)
        csvPath []).created = [] := by
  have hout : (ImportDomainData reverseOrder (csvWorld (headerLine :: scenarioA) none none).input
      (NewCustomerImporter csvPath)).outcome =
        .returned (some [⟨ascii "example.com", 2⟩, ⟨ascii "other.com", 1⟩]) none := by decide
  have h := (C14_terminal_rendering reverseOrder (csvWorld (headerLine :: scenarioA) none none)
    csvPath _ hout).1
  refine ⟨hout, ?_, ?_⟩
  · rw [h]
    decide
  · rw [h]

/-! ## Propagation of failures -/

/-- C13 (failures are propagated, no output on import failure). If `ImportDomainData`
returns an error, `ProcessCustomerData` returns an error wrapping it, hands nothing to
standard output and creates no file; if the import succeeds, the output path is non-empty
and `ExportData` returns an error, `ProcessCustomerData` returns an error wrapping that
one. -/
theorem C13_failures_propagate (ord : MapOrder) (w : World) (inputPath outputPath : GoString) :
    (∀ data e,
      (ImportDomainData ord w.input (NewCustomerImporter inputPath)).outcome =
          .returned data (some e) →
        ProcessCustomerData ord w inputPath outputPath =
          { outcome := .returned (some (.importFailed inputPath e))
            stdout := []
            created := []
            opened := (ImportDomainData ord w.input (NewCustomerImporter inputPath)).opened }) ∧
      (∀ data e,
        (ImportDomainData ord w.input (NewCustomerImporter inputPath)).outcome =
            .returned data none →
          outputPath ≠ [] →
          (ExportData w.Create (NewCustomerExporter outputPath) data).err = some e →
          (ProcessCustomerData ord w inputPath outputPath).outcome =
            .returned (some (.exportFailed outputPath e))) := by
  constructor
  · intro data e h
    unfold ProcessCustomerData
    simp only [h]
  · intro data e h hout he
    unfold ProcessCustomerData
    simp only [h, if_neg hout, he]

/-- C13 at concrete inputs: a missing input file gives an import error, no terminal output
and no file; an output path that cannot be created gives an export error. -/
theorem C13_scenario_failures :
    ProcessCustomerData insertionOrder (csvWorld (headerLine :: scenarioA) none none)
        (ascii "definitely_does_not_exist.csv") [] =
        { outcome := .returned (some (.importFailed (ascii "definitely_does_not_exist.csv")
            (.openFailed (ascii "definitely_does_not_exist.csv")
              (ascii "no such file or directory"))))
          stdout := []
          created := []
          opened := [ascii "definitely_does_not_exist.csv"] } ∧
      (ProcessCustomerData insertionOrder (csvWorld (headerLine :: scenarioA) none none)
        csvPath (ascii "/invalid/path/output.csv")).outcome =
        .returned (some (.exportFailed (ascii "/invalid/path/output.csv")
          (.createFailed (ascii "no such file or directory")))) := by
  have h := C13_failures_propagate insertionOrder (csvWorld (headerLine :: scenarioA) none none)
  refine ⟨?_, ?_⟩
  · rw [(h (ascii "definitely_does_not_exist.csv") []).1 none
      (.openFailed (ascii "definitely_does_not_exist.csv") (ascii "no such file or directory"))
      (by decide)]
    decide
  · exact (h csvPath (ascii "/invalid/path/output.csv")).2
      (some [⟨ascii "example.com", 2⟩, ⟨ascii "other.com", 1⟩])
      (.createFailed (ascii "no such file or directory")) (by decide) (by decide) (by decide)

/-! ## The exporter on nil and on empty data -/

theorem WriteByte_buffered (buf : GoString) (wr : FileWriter) (c : Nat)
    (h : buf.length < defaultBufSize) :
    BufWriter.WriteByte { buf := buf, err := none, wr := wr } c =
      { buf := buf ++ [c], err := none, wr := wr } := by
  have hA : ¬ (BufWriter.Available { buf := buf, err := none, wr := wr } ≤ 0) := by
    unfold BufWriter.Available
    simp only
    omega
  unfold BufWriter.WriteByte
  simp only [hA, if_false]

theorem WriteString_buffered (buf s : GoString) (wr : FileWriter)
    (h : buf.length + s.length ≤ defaultBufSize) :
    BufWriter.WriteString { buf := buf, err := none, wr := wr } s =
      { buf := buf ++ s, err := none, wr := wr } := by
  have hA : ¬ (BufWriter.Available { buf := buf, err := none, wr := wr } < s.length) := by
    unfold BufWriter.Available
    simp only
    omega
  have hp : BufWriter.writePass ({ buf := buf, err := none, wr := wr }, s) =
      ({ buf := buf, err := none, wr := wr }, s) := by
    unfold BufWriter.writePass
    simp only [hA, false_and, if_false]
  unfold BufWriter.WriteString
  simp only [hp]

theorem csvWrite_header (out : FileWriter) :
    csvWrite { buf := [], err := none, wr := out }
        [ascii "domain", ascii "number_of_customers"] =
      { buf := headerRow, err := none, wr := out } := by
  have hops : recordOps true [ascii "domain", ascii "number_of_customers"] ++
      [BufOp.byte newline] =
        [.str (ascii "domain"), .byte comma, .str (ascii "number_of_customers"),
          .byte newline] := by decide
  unfold csvWrite
  rw [hops]
  simp only [List.foldl, BufWriter.apply]
  rw [WriteString_buffered [] _ out (by decide), WriteByte_buffered _ out _ (by decide),
    WriteString_buffered _ _ out (by decide), WriteByte_buffered _ out _ (by decide)]
  have hb : (([] ++ ascii "domain") ++ [comma]) ++ ascii "number_of_customers" ++ [newline] =
      headerRow := by decide
  rw [hb]

theorem csvWorld_Open (lines : List GoString) (failure : Option GoString)
    (room : Option Nat) :
    (csvWorld lines failure room).input.Open csvPath = .ok ⟨lines, failure⟩ := by
  simp [csvWorld, csvFile, singleFile]

theorem csvWorld_Create (lines : List GoString) (failure : Option GoString)
    (room : Option Nat) :
    (csvWorld lines failure room).Create outPath = .ok room := by
  simp [csvWorld, createOnly]

theorem exportCsv_empty (room : Option Nat) (hroom : ∀ k, room = some k → 27 ≤ k) :
    (exportCsv [] { content := [], room := room }).ret = none ∧
      (exportCsv [] { content := [], room := room }).flushErr = none ∧
      (exportCsv [] { content := [], room := room }).output.content = headerRow := by
  unfold exportCsv
  rw [csvWrite_header]
  cases room with
  | none => exact ⟨rfl, rfl, rfl⟩
  | some k =>
    have hk : 27 ≤ k := hroom k rfl
    have hlen : headerRow.length = 27 := by decide
    have hne : headerRow ≠ [] := by decide
    simp only [writeRows, exportCsvDeferred, BufWriter.Flush, FileWriter.Write, if_neg hne,
      hlen, if_pos hk]
    exact ⟨trivial, trivial, by simp⟩

/-- C18 (a successful import is never rejected as nil). Every slice that `ImportDomainData`
returns together with a nil error is non-nil; `ExportData` returns its nil-data error exactly
when its argument is the nil slice, and then creates no file; and for a header-only input and
an output path that can be created with room for the header row, `ProcessCustomerData`
returns a nil error and leaves exactly one file, at the output path, holding the header row
only. -/
theorem C18_nil_only_rejected (ord : MapOrder) (w : World)
    (inputPath outputPath line : GoString) (room : Option Nat)
    (hin : inputPath ≠ []) (hstream : w.input.Open inputPath = .ok ⟨[line], none⟩)
    (hout : outputPath ≠ []) (hcreate : w.Create outputPath = .ok room)
    (hroom : ∀ k, room = some k → 27 ≤ k) :
    (∀ (ord' : MapOrder) (fs : FileSystem) (ci : Importer) (data : Option (List DomainData)),
        (ImportDomainData ord' fs ci).outcome = .returned data none → data ≠ none) ∧
      (∀ (create : GoString → Except GoString (Option Nat)) (ex : Exporter)
          (data : Option (List DomainData)),
        ((ExportData create ex data).err = some .nilData ↔ data = none) ∧
          (data = none → (ExportData create ex data).created = [])) ∧
      (ImportDomainData ord w.input (NewCustomerImporter inputPath)).outcome =
        .returned (some []) none ∧
      ProcessCustomerData ord w inputPath outputPath =
        { outcome := .returned none
          stdout := []
          created := [(outputPath, ascii "domain,number_of_customers" ++ [newline])]
          opened := [inputPath] } := by
  have himp : ImportDomainData ord w.input (NewCustomerImporter inputPath) =
      { outcome := .returned (some []) none, opened := [inputPath] } := by
    rw [import_of_clean_stream ord w.input (NewCustomerImporter inputPath) line [] hin hstream]
    show ImportResult.mk (.returned (some (finalize ord [])) none) _ = _
    rw [finalize_nil]
    rfl
  obtain ⟨he1, _, he3⟩ := exportCsv_empty room hroom
  refine ⟨fun ord' fs ci data h => (import_success_result ord' fs ci data h).1, ?_, ?_, ?_⟩
  · intro create ex data
    cases data with
    | none => exact ⟨⟨fun _ => rfl, fun _ => rfl⟩, fun _ => rfl⟩
    | some l =>
      refine ⟨⟨fun h => ?_, fun h => by cases h⟩, fun h => by cases h⟩
      unfold ExportData at h
      simp only at h
      split at h
      · cases h
      · split at h <;> cases h
  · rw [himp]
  · unfold ProcessCustomerData
    simp only [himp, if_neg hout]
    unfold ExportData
    simp only [NewCustomerExporter, hcreate, he1, he3]
    rfl

/-- C18 at a concrete input: a file holding only the header line, exported to `out.csv` on
a device without limit, leaves `out.csv` holding the header row only. -/
theorem C18_header_only_export :
    ProcessCustomerData insertionOrder (csvWorld [headerLine] none none) csvPath outPath =
      { outcome := .returned none
        stdout := []
        created := [(outPath, ascii "domain,number_of_customers" ++ [newline])]
        opened := [csvPath] } :=
  (C18_nil_only_rejected insertionOrder (csvWorld [headerLine] none none) csvPath outPath
    headerLine none (by decide) (csvWorld_Open _ _ _) (by decide) (csvWorld_Create _ _ _)
    (fun k hk => by cases hk)).2.2.2

/-- C12 (flush errors), evaluated where the code departs from it: on a device that accepts
no byte, exporting the two entries of scenario A fills only the buffer, the deferred flush
fails and `csvWriter.Error()` is non-nil, yet `exportCsv` returns nil, and so do `ExportData`
and `ProcessCustomerData`, leaving an empty output file. -/
theorem C12_flush_error_dropped :
    exportCsv [⟨ascii "example.com", 2⟩, ⟨ascii "other.com", 1⟩]
        { content := [], room := some 0 } =
        { ret := none, flushErr := some noSpace, output := { content := [], room := some 0 } } ∧
      ExportData (createOnly (some 0)) (NewCustomerExporter outPath)
          (some [⟨ascii "example.com", 2⟩, ⟨ascii "other.com", 1⟩]) =
        { err := none, created := [(outPath, [])] } ∧
      ProcessCustomerData insertionOrder (csvWorld (headerLine :: scenarioA) none (some 0))
          csvPath outPath =
        { outcome := .returned none, stdout := [], created := [(outPath, [])],
          opened := [csvPath] } := by
  decide

/-! ## The loop of `WriteString` needs at most two passes -/

theorem FileWriter_Write_full (f : FileWriter) (p : GoString)
    (h : (f.Write p).2.1 = none) : (f.Write p).1 = p.length := by
  unfold FileWriter.Write at h ⊢
  cases hr : f.room with
  | none => rfl
  | some k =>
    simp only [hr] at h ⊢
    split_ifs at h ⊢ with hk
    rfl

theorem writePass_of_done (st : BufWriter × GoString)
    (h : ¬ (st.1.Available < st.2.length ∧ st.1.err = none)) :
    BufWriter.writePass st = st := by
  unfold BufWriter.writePass
  simp only [h, if_false]

theorem writePass_empty_buffer (b : BufWriter) (s : GoString) (hb : b.buf = []) :
    ¬ ((BufWriter.writePass (b, s)).1.Available < (BufWriter.writePass (b, s)).2.length ∧
      (BufWriter.writePass (b, s)).1.err = none) := by
  by_cases hc : b.Available < s.length ∧ b.err = none
  · have hp : BufWriter.writePass (b, s) =
        ({ buf := [], err := (b.wr.Write s).2.1, wr := (b.wr.Write s).2.2 },
          s.drop (b.wr.Write s).1) := by
      unfold BufWriter.writePass
      simp only [hc, hb, and_self, if_true]
    rw [hp]
    rintro ⟨hlt, herr⟩
    simp only at herr hlt
    rw [FileWriter_Write_full b.wr s herr] at hlt
    simp at hlt
  · rw [writePass_of_done (b, s) hc]
    exact hc

theorem writePass_filled_buffer (b : BufWriter) (s : GoString) (hb : b.buf ≠ [])
    (hc : b.Available < s.length ∧ b.err = none) :
    (BufWriter.writePass (b, s)).1.err ≠ none ∨ (BufWriter.writePass (b, s)).1.buf = [] := by
  have hp : BufWriter.writePass (b, s) =
      (BufWriter.Flush { b with buf := b.buf ++ s.take b.Available }, s.drop b.Available) := by
    unfold BufWriter.writePass
    simp only [hc, hb, and_self, if_true, if_false]
  rw [hp]
  have hne : b.buf ++ s.take b.Available ≠ [] := by
    intro h
    exact hb (List.append_eq_nil.1 h).1
  unfold BufWriter.Flush
  simp only [hc.2, if_neg hne]
  split
  · right
    rfl
  · left
    simp

theorem writePass_twice_done (b : BufWriter) (s : GoString) :
    ¬ ((BufWriter.writePass (BufWriter.writePass (b, s))).1.Available <
          (BufWriter.writePass (BufWriter.writePass (b, s))).2.length ∧
        (BufWriter.writePass (BufWriter.writePass (b, s))).1.err = none) := by
  by_cases hc : b.Available < s.length ∧ b.err = none
  · by_cases hb : b.buf = []
    · have h1 := writePass_empty_buffer b s hb
      rw [writePass_of_done _ h1]
      exact h1
    · rcases writePass_filled_buffer b s hb hc with herr | hbuf
      · have h1 : ¬ ((BufWriter.writePass (b, s)).1.Available <
            (BufWriter.writePass (b, s)).2.length ∧
              (BufWriter.writePass (b, s)).1.err = none) := fun h => herr h.2
        rw [writePass_of_done _ h1]
        exact h1
      · exact writePass_empty_buffer _ _ hbuf
  · have h1 : ¬ (((b, s) : BufWriter × GoString).1.Available <
        ((b, s) : BufWriter × GoString).2.length ∧
          ((b, s) : BufWriter × GoString).1.err = none) := hc
    rw [writePass_of_done _ h1, writePass_of_done _ h1]
    exact hc

/-! ## The scanner's token limit -/

theorem bufioScan_short (segs : List GoString) (e : Option GoString)
    (h : ∀ seg ∈ segs, seg.length < maxScanTokenSize) :
    bufioScan segs e = { lines := segs.map dropCR, failure := e } := by
  induction segs with
  | nil => rfl
  | cons seg rest ih =>
    have hs : ¬ maxScanTokenSize ≤ seg.length := by
      have := h seg (List.mem_cons_self _ _)
      omega
    have ih' := ih (fun s hs' => h s (List.mem_cons_of_mem _ hs'))
    unfold bufioScan
    rw [if_neg hs, ih']
    rfl

theorem bufioScan_long (pre post : List GoString) (long : GoString) (e : Option GoString)
    (h : ∀ seg ∈ pre, seg.length < maxScanTokenSize)
    (hl : maxScanTokenSize ≤ long.length) :
    bufioScan (pre ++ long :: post) e =
      { lines := pre.map dropCR, failure := some errTooLong } := by
  induction pre with
  | nil =>
    show bufioScan (long :: post) e = _
    unfold bufioScan
    rw [if_pos hl]
    rfl
  | cons seg rest ih =>
    have hs : ¬ maxScanTokenSize ≤ seg.length := by
      have := h seg (List.mem_cons_self _ _)
      omega
    have ih' := ih (fun s hs' => h s (List.mem_cons_of_mem _ hs'))
    show bufioScan (seg :: (rest ++ long :: post)) e = _
    unfold bufioScan
    rw [if_neg hs, ih']
    rfl

theorem bufioScan_split (segs : List GoString) :
    (∀ seg ∈ segs, seg.length < maxScanTokenSize) ∨
      ∃ pre long post, segs = pre ++ long :: post ∧
        (∀ seg ∈ pre, seg.length < maxScanTokenSize) ∧ maxScanTokenSize ≤ long.length := by
  induction segs with
  | nil => left; intro seg h; cases h
  | cons seg rest ih =>
    by_cases hs : seg.length < maxScanTokenSize
    · rcases ih with hall | ⟨pre, long, post, heq, hpre, hl⟩
      · left
        intro s hs'
        rcases List.mem_cons.1 hs' with h1 | h1
        · rw [h1]; exact hs
        · exact hall s h1
      · right
        refine ⟨seg :: pre, long, post, by rw [heq]; rfl, ?_, hl⟩
        intro s hs'
        rcases List.mem_cons.1 hs' with h1 | h1
        · rw [h1]; exact hs
        · exact hpre s h1
    · right
      exact ⟨[], seg, rest, rfl, fun _ h => absurd h (List.not_mem_nil _), Nat.le_of_not_lt hs⟩

theorem longLine_length : maxScanTokenSize ≤ longLine.length := by
  unfold longLine
  rw [List.length_replicate]

theorem import_eq_streamOutcome (ord : MapOrder) (fs : FileSystem) (ci : Importer)
    (s : LineStream) (hp : ci.path ≠ []) (ho : fs.Open ci.path = .ok s) :
    ImportDomainData ord fs ci =
      { outcome := streamOutcome ord ci.path s, opened := [ci.path] } := by
  obtain ⟨lines, failure⟩ := s
  cases lines with
  | nil => cases failure <;> simp [ImportDomainData, hp, ho, streamOutcome]
  | cons header dataLines =>
    cases failure with
    | some e =>
      rw [import_of_failed_stream ord fs ci header dataLines e hp ho]
      rfl
    | none =>
      rw [import_of_clean_stream ord fs ci header dataLines hp ho]
      rfl

theorem rawFileSystem_Open (files : GoString → Except GoString RawFile) (path : GoString)
    (f : RawFile) (h : files path = .ok f) :
    (rawFileSystem files).Open path = .ok f.scan := by
  simp [rawFileSystem, h]

theorem import_raw (ord : MapOrder) (files : GoString → Except GoString RawFile)
    (ci : Importer) (segs : List GoString) (e : Option GoString)
    (hp : ci.path ≠ []) (ho : files ci.path = .ok ⟨segs, e⟩) :
    ImportDomainData ord (rawFileSystem files) ci =
      { outcome := streamOutcome ord ci.path (bufioScan segs e), opened := [ci.path] } :=
  import_eq_streamOutcome ord _ ci _ hp (rawFileSystem_Open files ci.path ⟨segs, e⟩ ho)

theorem csvFiles_path (segments : List GoString) (readErr : Option GoString) :
    csvFiles segments readErr csvImporter.path = .ok ⟨segments, readErr⟩ := by
  simp [csvFiles, csvImporter, NewCustomerImporter]

theorem rawOutcome_eq (ord : MapOrder) (header : GoString) (dataSegments : List GoString) :
    rawOutcome ord header dataSegments =
      streamOutcome ord csvPath (bufioScan (header :: dataSegments) none) := by
  unfold rawOutcome rawCsv
  rw [import_raw ord _ csvImporter (header :: dataSegments) none csvImporter_path_ne
    (csvFiles_path _ _)]
  rfl

theorem streamOutcome_short (ord : MapOrder) (path header : GoString)
    (dataSegments : List GoString)
    (h : ∀ seg ∈ header :: dataSegments, seg.length < maxScanTokenSize) :
    streamOutcome ord path (bufioScan (header :: dataSegments) none) =
      .returned (some (finalize ord (scannedCounts (dataSegments.map dropCR)))) none := by
  rw [bufioScan_short _ _ h]
  rfl

theorem streamOutcome_long (ord : MapOrder) (path header long : GoString)
    (pre post : List GoString) (e : Option GoString)
    (h : ∀ seg ∈ header :: pre, seg.length < maxScanTokenSize)
    (hl : maxScanTokenSize ≤ long.length) :
    streamOutcome ord path (bufioScan (header :: (pre ++ long :: post)) e) =
      .returned none (some (.readFailed path errTooLong)) := by
  have := bufioScan_long (header :: pre) post long e h hl
  rw [List.cons_append] at this
  rw [this]
  rfl

theorem streamOutcome_long_header (ord : MapOrder) (path header : GoString)
    (rest : List GoString) (e : Option GoString) (hl : maxScanTokenSize ≤ header.length) :
    streamOutcome ord path (bufioScan (header :: rest) e) =
      .returned none (some (.headerReadFailed path errTooLong)) := by
  have := bufioScan_long [] rest header e (fun _ h => absurd h (List.not_mem_nil _)) hl
  rw [List.nil_append] at this
  rw [this]
  rfl

/-! ## Results on files read through the scanner -/

theorem bufioScan_cons_short (seg : GoString) (rest : List GoString) (e : Option GoString)
    (h : seg.length < maxScanTokenSize) :
    bufioScan (seg :: rest) e =
      { lines := dropCR seg :: (bufioScan rest e).lines
        failure := (bufioScan rest e).failure } := by
  have hs : ¬ maxScanTokenSize ≤ seg.length := by omega
  show (if maxScanTokenSize ≤ seg.length then _ else _) = _
  rw [if_neg hs]

theorem streamOutcome_cons_congr (ord : MapOrder) (path h h' : GoString)
    (l l' : List GoString) (f : Option GoString)
    (hE : extractedDomains l = extractedDomains l') :
    streamOutcome ord path { lines := h :: l, failure := f } =
      streamOutcome ord path { lines := h' :: l', failure := f } := by
  cases f with
  | some e => rfl
  | none =>
    show ImportOutcome.returned (some (finalize ord (scannedCounts l))) none =
      ImportOutcome.returned (some (finalize ord (scannedCounts l'))) none
    unfold scannedCounts
    rw [hE]

theorem bufioScan_insert (pre post : List GoString) (bad : GoString) (e : Option GoString)
    (hshort : bad.length < maxScanTokenSize) (hbad : lineDomain (dropCR bad) = none) :
    (bufioScan (pre ++ bad :: post) e).failure = (bufioScan (pre ++ post) e).failure ∧
      extractedDomains (bufioScan (pre ++ bad :: post) e).lines =
        extractedDomains (bufioScan (pre ++ post) e).lines := by
  induction pre with
  | nil =>
    show (bufioScan (bad :: post) e).failure = (bufioScan post e).failure ∧
      extractedDomains (bufioScan (bad :: post) e).lines =
        extractedDomains (bufioScan post e).lines
    rw [bufioScan_cons_short bad post e hshort]
    refine ⟨rfl, ?_⟩
    unfold extractedDomains
    exact List.filterMap_cons_none hbad
  | cons seg rest ih =>
    show (bufioScan (seg :: (rest ++ bad :: post)) e).failure =
        (bufioScan (seg :: (rest ++ post)) e).failure ∧
      extractedDomains (bufioScan (seg :: (rest ++ bad :: post)) e).lines =
        extractedDomains (bufioScan (seg :: (rest ++ post)) e).lines
    by_cases hs : seg.length < maxScanTokenSize
    · rw [bufioScan_cons_short seg _ e hs, bufioScan_cons_short seg _ e hs]
      refine ⟨ih.1, ?_⟩
      unfold extractedDomains at ih ⊢
      cases hl : lineDomain (dropCR seg) with
      | none => rw [List.filterMap_cons_none hl, List.filterMap_cons_none hl, ih.2]
      | some d => rw [List.filterMap_cons_some hl, List.filterMap_cons_some hl, ih.2]
    · have hl : maxScanTokenSize ≤ seg.length := by omega
      have h1 := bufioScan_long [] (rest ++ bad :: post) seg e
        (fun _ h => absurd h (List.not_mem_nil _)) hl
      have h2 := bufioScan_long [] (rest ++ post) seg e
        (fun _ h => absurd h (List.not_mem_nil _)) hl
      rw [List.nil_append] at h1 h2
      rw [h1, h2]
      exact ⟨rfl, rfl⟩

theorem streamOutcome_insert (ord : MapOrder) (path header bad : GoString)
    (pre post : List GoString) (e : Option GoString)
    (hshort : bad.length < maxScanTokenSize) (hbad : lineDomain (dropCR bad) = none) :
    streamOutcome ord path (bufioScan (header :: (pre ++ bad :: post)) e) =
      streamOutcome ord path (bufioScan (header :: (pre ++ post)) e) := by
  by_cases hh : header.length < maxScanTokenSize
  · obtain ⟨hf, hE⟩ := bufioScan_insert pre post bad e hshort hbad
    rw [bufioScan_cons_short header _ e hh, bufioScan_cons_short header _ e hh, hf]
    exact streamOutcome_cons_congr ord path _ _ _ _ _ hE
  · have hl : maxScanTokenSize ≤ header.length := by omega
    rw [streamOutcome_long_header ord path header _ e hl,
      streamOutcome_long_header ord path header _ e hl]

theorem streamOutcome_header (ord : MapOrder) (path header header' : GoString)
    (rest : List GoString) (e : Option GoString)
    (hlen : header.length < maxScanTokenSize ↔ header'.length < maxScanTokenSize) :
    streamOutcome ord path (bufioScan (header :: rest) e) =
      streamOutcome ord path (bufioScan (header' :: rest) e) := by
  by_cases hh : header.length < maxScanTokenSize
  · rw [bufioScan_cons_short header _ e hh, bufioScan_cons_short header' _ e (hlen.1 hh)]
    exact streamOutcome_cons_congr ord path _ _ _ _ _ rfl
  · have hl : maxScanTokenSize ≤ header.length := by omega
    have hl' : maxScanTokenSize ≤ header'.length := by
      have : ¬ header'.length < maxScanTokenSize := fun h => hh (hlen.2 h)
      omega
    rw [streamOutcome_long_header ord path header _ e hl,
      streamOutcome_long_header ord path header' _ e hl']

theorem streamOutcome_perm (ord : MapOrder) (path header : GoString)
    (l₁ l₂ : List GoString) (e : Option GoString) (hperm : l₁.Perm l₂) :
    streamOutcome ord path (bufioScan (header :: l₁) e) =
      streamOutcome ord path (bufioScan (header :: l₂) e) := by
  by_cases hh : header.length < maxScanTokenSize
  · rcases bufioScan_split l₁ with h1 | ⟨pre, long, post, heq, hpre, hl⟩
    · have h2 : ∀ seg ∈ l₂, seg.length < maxScanTokenSize :=
        fun seg hs => h1 seg (hperm.mem_iff.2 hs)
      rw [bufioScan_cons_short header _ e hh, bufioScan_cons_short header _ e hh,
        bufioScan_short l₁ e h1, bufioScan_short l₂ e h2]
      cases e with
      | some err => rfl
      | none =>
        show ImportOutcome.returned (some (finalize ord (scannedCounts (l₁.map dropCR)))) none =
          ImportOutcome.returned (some (finalize ord (scannedCounts (l₂.map dropCR)))) none
        rw [scannedCounts_perm ord ord _ _ (hperm.map dropCR)]
    · have hmem : long ∈ l₂ := hperm.mem_iff.1 (by rw [heq]; simp)
      rcases bufioScan_split l₂ with h2 | ⟨pre', long', post', heq', hpre', hl'⟩
      · have := h2 long hmem
        omega
      · have hA : ∀ seg ∈ header :: pre, seg.length < maxScanTokenSize := by
          intro seg hs
          rcases List.mem_cons.1 hs with h | h
          · rw [h]; exact hh
          · exact hpre seg h
        have hB : ∀ seg ∈ header :: pre', seg.length < maxScanTokenSize := by
          intro seg hs
          rcases List.mem_cons.1 hs with h | h
          · rw [h]; exact hh
          · exact hpre' seg h
        rw [heq, heq', streamOutcome_long ord path header long pre post e hA hl,
          streamOutcome_long ord path header long' pre' post' e hB hl']
  · have hl : maxScanTokenSize ≤ header.length := by omega
    rw [streamOutcome_long_header ord path header _ e hl,
      streamOutcome_long_header ord path header _ e hl]

theorem comma_not_mem_longLine : comma ∉ longLine := by
  unfold longLine
  intro h
  have := List.eq_of_mem_replicate h
  unfold comma at this
  omega

theorem rawOutcome_short (ord : MapOrder) (header : GoString) (dataSegments : List GoString)
    (h : ∀ seg ∈ header :: dataSegments, seg.length < maxScanTokenSize) :
    rawOutcome ord header dataSegments =
      .returned (some (finalize ord (scannedCounts (dataSegments.map dropCR)))) none := by
  rw [rawOutcome_eq, streamOutcome_short ord csvPath header dataSegments h]

theorem rawOutcome_long (ord : MapOrder) (header long : GoString) (pre post : List GoString)
    (h : ∀ seg ∈ header :: pre, seg.length < maxScanTokenSize)
    (hl : maxScanTokenSize ≤ long.length) :
    rawOutcome ord header (pre ++ long :: post) =
      .returned none (some (.readFailed csvPath errTooLong)) := by
  rw [rawOutcome_eq, streamOutcome_long ord csvPath header long pre post none h hl]

/-! ## The claims on whole input files -/

/-- C1 (completeness, for lines within the scanner's limit and with the counter taken
modulo 2^64). For every file made of a header line followed by any data lines, each line
shorter than `bufio.MaxScanTokenSize` (64 KiB) and the file read to its end without error,
`ImportDomainData` succeeds, and for every domain `d` borne by at least one valid data line
(as delivered, without a trailing carriage return) the returned sequence has exactly one
entry whose `Domain` is `d`; its `CustomerQuantity` is the number of valid data lines
bearing `d` reduced modulo `2^64`, which is that number itself whenever it is below
`2^64`. -/
theorem C1_completeness_scanned (ord : MapOrder)
    (files : GoString → Except GoString RawFile) (ci : Importer)
    (header : GoString) (dataSegments : List GoString)
    (hp : ci.path ≠ []) (ho : files ci.path = .ok ⟨header :: dataSegments, none⟩)
    (hshort : ∀ seg ∈ header :: dataSegments, seg.length < maxScanTokenSize) :
    ∃ data,
      (ImportDomainData ord (rawFileSystem files) ci).outcome = .returned (some data) none ∧
      ∀ d, (∃ line ∈ dataSegments.map dropCR, ValidRecord line d) →
        data.filter (fun e => decide (e.Domain = d)) =
            [⟨d, validCount (dataSegments.map dropCR) d % uint64Size⟩] ∧
          (validCount (dataSegments.map dropCR) d < uint64Size →
            data.filter (fun e => decide (e.Domain = d)) =
              [⟨d, validCount (dataSegments.map dropCR) d⟩]) := by
  have hopen : (rawFileSystem files).Open ci.path =
      .ok ⟨dropCR header :: dataSegments.map dropCR, none⟩ := by
    rw [rawFileSystem_Open files ci.path _ ho]
    show Except.ok (bufioScan (header :: dataSegments) none) = _
    rw [bufioScan_short _ _ hshort]
    rfl
  exact completeness_on_stream ord (rawFileSystem files) ci (dropCR header)
    (dataSegments.map dropCR) hp hopen

/-- C1, end-to-end scenario A: the file holding the header and the three rows of the
scenario returns exactly `[("example.com", 2), ("other.com", 1)]`, and the entry for
`example.com` is the one that the completeness theorem describes. -/
theorem C1_scenario_A_file :
    (ImportDomainData reverseOrder (rawFileSystem (csvFiles (headerLine :: scenarioA) none))
        csvImporter).outcome =
        .returned (some [⟨ascii "example.com", 2⟩, ⟨ascii "other.com", 1⟩]) none ∧
      validCount (scenarioA.map dropCR) (ascii "example.com") = 2 ∧
      validCount (scenarioA.map dropCR) (ascii "other.com") = 1 ∧
      [(⟨ascii "example.com", 2⟩ : DomainData), ⟨ascii "other.com", 1⟩].filter
          (fun e => decide (e.Domain = ascii "example.com")) =
        [⟨ascii "example.com", validCount (scenarioA.map dropCR) (ascii "example.com")⟩] := by
  have hout : (ImportDomainData reverseOrder
      (rawFileSystem (csvFiles (headerLine :: scenarioA) none)) csvImporter).outcome =
        .returned (some [⟨ascii "example.com", 2⟩, ⟨ascii "other.com", 1⟩]) none := by decide
  obtain ⟨data, h1, h2⟩ := C1_completeness_scanned reverseOrder
    (csvFiles (headerLine :: scenarioA) none) csvImporter headerLine scenarioA
    csvImporter_path_ne (csvFiles_path _ _) (by decide)
  rw [hout] at h1
  have hd : data = [⟨ascii "example.com", 2⟩, ⟨ascii "other.com", 1⟩] := by
    injection h1 with h _
    injection h with h
    exact h.symm
  subst hd
  have hv : ValidRecord (ascii "1,Foo,a@example.com") (ascii "example.com") :=
    (processLine_counted_iff _ _).1 (by decide)
  have hc : validCount (scenarioA.map dropCR) (ascii "example.com") < uint64Size := by decide
  exact ⟨hout, by decide, by decide,
    (h2 (ascii "example.com") ⟨ascii "1,Foo,a@example.com", by decide, hv⟩).2 hc⟩

/-- C1, counterexamples to the claim as stated. For a header followed by `2^64` copies of
the valid row `1,Foo,a@example.com`, the number of valid data lines bearing `example.com` is
`2^64`, yet the single entry returned for it has `CustomerQuantity` 0. For a header followed
by that row and by a line of 64 KiB, `example.com` is borne by a valid data line, yet no
sequence is returned: the scanner stops with `ErrTooLong` and the call returns an error. -/
theorem C1_wrap_or_long_line :
    processLine (ascii "1,Foo,a@example.com") = .counted (ascii "example.com") ∧
      validCount (List.replicate uint64Size (ascii "1,Foo,a@example.com"))
          (ascii "example.com") = uint64Size ∧
      rawOutcome insertionOrder headerLine
          (List.replicate uint64Size (ascii "1,Foo,a@example.com")) =
        .returned (some [⟨ascii "example.com", 0⟩]) none ∧
      rawOutcome insertionOrder headerLine [ascii "1,Foo,a@example.com", longLine] =
        .returned none (some (.readFailed csvPath errTooLong)) := by
  have hd : dropCR (ascii "1,Foo,a@example.com") = ascii "1,Foo,a@example.com" := by decide
  refine ⟨by decide, validCount_replicate _ _ _ (by decide), ?_, ?_⟩
  · have hshort : ∀ seg ∈ headerLine ::
        List.replicate uint64Size (ascii "1,Foo,a@example.com"),
          seg.length < maxScanTokenSize := by
      intro seg hs
      rcases List.mem_cons.1 hs with h | h
      · rw [h]; decide
      · rw [List.eq_of_mem_replicate h]; decide
    rw [rawOutcome_short _ _ _ hshort, List.map_replicate, hd,
      scannedCounts_replicate uint64Size _ (ascii "example.com") (by decide) uint64Size_pos,
      Nat.mod_self, finalize_singleton]
  · exact rawOutcome_long insertionOrder headerLine longLine [ascii "1,Foo,a@example.com"] []
      (by decide) longLine_length

/-- C4 (skip-not-fail, for a record within the scanner's limit whose first `@` is
misplaced). In a file with a header, inserting among the data lines a record shorter than
`bufio.MaxScanTokenSize` (64 KiB) that, as delivered, has fewer than three comma-separated
fields, or whose third field contains no `@`, starts with `@`, or has its first `@` as its
last byte, leaves the whole result of `ImportDomainData` unchanged, whatever the other lines
and the end of the read are; when the other lines are within the limit and the read ends
cleanly, that result is a success. -/
theorem C4_short_malformed_skipped (ord : MapOrder)
    (files files' : GoString → Except GoString RawFile) (ci : Importer)
    (header bad : GoString) (pre post : List GoString) (readErr : Option GoString)
    (hp : ci.path ≠ [])
    (ho : files ci.path = .ok ⟨header :: (pre ++ bad :: post), readErr⟩)
    (ho' : files' ci.path = .ok ⟨header :: (pre ++ post), readErr⟩)
    (hshort : bad.length < maxScanTokenSize)
    (hbad : MalformedRecord (dropCR bad)) :
    ImportDomainData ord (rawFileSystem files) ci =
        ImportDomainData ord (rawFileSystem files') ci ∧
      ((∀ seg ∈ header :: (pre ++ post), seg.length < maxScanTokenSize) → readErr = none →
        ∃ data, (ImportDomainData ord (rawFileSystem files) ci).outcome =
          .returned (some data) none) := by
  have heq : ImportDomainData ord (rawFileSystem files) ci =
      ImportDomainData ord (rawFileSystem files') ci := by
    rw [import_raw ord files ci _ readErr hp ho, import_raw ord files' ci _ readErr hp ho',
      streamOutcome_insert ord ci.path header bad pre post readErr hshort
        (lineDomain_of_malformed _ hbad)]
  refine ⟨heq, fun hall hclean => ?_⟩
  subst hclean
  rw [heq, import_raw ord files' ci _ none hp ho',
    streamOutcome_short ord ci.path header (pre ++ post) hall]
  exact ⟨_, rfl⟩

/-- C4, end-to-end scenario B: the three malformed rows of the scenario mixed into the rows
of scenario A contribute nothing, and inserting `6,Bad3,trailing@` after the first row
changes nothing either. -/
theorem C4_scenario_B_file :
    rawOutcome insertionOrder headerLine (scenarioBad ++ scenarioA) =
        .returned (some [⟨ascii "example.com", 2⟩, ⟨ascii "other.com", 1⟩]) none ∧
      MalformedRecord (dropCR (ascii "6,Bad3,trailing@")) ∧
      ImportDomainData insertionOrder
          (rawFileSystem (csvFiles (headerLine :: (scenarioA.take 1 ++
            ascii "6,Bad3,trailing@" :: scenarioA.drop 1)) none)) csvImporter =
        ImportDomainData insertionOrder
          (rawFileSystem (csvFiles (headerLine :: (scenarioA.take 1 ++ scenarioA.drop 1))
            none)) csvImporter := by
  have hm : MalformedRecord (dropCR (ascii "6,Bad3,trailing@")) :=
    Or.inr ⟨ascii "trailing@", by decide, Or.inr (Or.inr ⟨ascii "trailing", by decide,
      by decide⟩)⟩
  exact ⟨by decide, hm,
    (C4_short_malformed_skipped insertionOrder _ _ csvImporter headerLine
      (ascii "6,Bad3,trailing@") (scenarioA.take 1) (scenarioA.drop 1) none
      csvImporter_path_ne (csvFiles_path _ _) (csvFiles_path _ _) (by decide) hm).1⟩

/-- C4, counterexamples to the claim as stated. The record `7,X,a@b@` has three fields and
an email value that ends with `@`, yet inserting it between the rows of scenario A adds the
entry `("b@", 1)` to the result. A record of 64 KiB without any comma has fewer than three
fields, yet inserting it between the rows of scenario A turns the success into an error:
the scanner stops with `ErrTooLong`. -/
theorem C4_counted_or_too_long :
    (Split (ascii "7,X,a@b@") comma).get? 2 = some (ascii "a@b@") ∧
      (ascii "a@b@").getLast? = some atSign ∧
      rawOutcome insertionOrder headerLine
          (scenarioA.take 1 ++ ascii "7,X,a@b@" :: scenarioA.drop 1) =
        .returned (some [⟨ascii "b@", 1⟩, ⟨ascii "example.com", 2⟩, ⟨ascii "other.com", 1⟩])
          none ∧
      rawOutcome insertionOrder headerLine (scenarioA.take 1 ++ scenarioA.drop 1) =
        .returned (some [⟨ascii "example.com", 2⟩, ⟨ascii "other.com", 1⟩]) none ∧
      (Split longLine comma).length < 3 ∧
      rawOutcome insertionOrder headerLine (scenarioA.take 1 ++ longLine :: scenarioA.drop 1) =
        .returned none (some (.readFailed csvPath errTooLong)) := by
  refine ⟨by decide, by decide, by decide, by decide, ?_, ?_⟩
  · rw [Split_of_no_sep longLine comma comma_not_mem_longLine]
    decide
  · exact rawOutcome_long insertionOrder headerLine longLine (scenarioA.take 1)
      (scenarioA.drop 1) (by decide) longLine_length

/-- C8 (the header is discarded without validation, within the scanner's limit). Two files
that have at least one line and differ only in their first line, the two first lines being
both shorter than `bufio.MaxScanTokenSize` (64 KiB) or both not, give the same result of
`ImportDomainData`, whatever the map enumeration orders of the two runs. -/
theorem C8_header_discarded_file (ord₁ ord₂ : MapOrder)
    (files files' : GoString → Except GoString RawFile) (ci : Importer)
    (header header' : GoString) (rest : List GoString) (readErr : Option GoString)
    (hp : ci.path ≠ [])
    (ho : files ci.path = .ok ⟨header :: rest, readErr⟩)
    (ho' : files' ci.path = .ok ⟨header' :: rest, readErr⟩)
    (hlen : header.length < maxScanTokenSize ↔ header'.length < maxScanTokenSize) :
    ImportDomainData ord₁ (rawFileSystem files) ci =
      ImportDomainData ord₂ (rawFileSystem files') ci := by
  rw [import_order_irrelevant ord₁ ord₂ (rawFileSystem files) ci,
    import_raw ord₂ files ci _ readErr hp ho, import_raw ord₂ files' ci _ readErr hp ho',
    streamOutcome_header ord₂ ci.path header header' rest readErr hlen]

/-- C8 at a concrete input: a first line that is itself a well-formed record is not counted;
the file holding only `1,Foo,a@example.com` gives the same empty success as the file holding
only the header. -/
theorem C8_record_as_header_file :
    processLine (ascii "1,Foo,a@example.com") = .counted (ascii "example.com") ∧
      ImportDomainData insertionOrder
          (rawFileSystem (csvFiles [ascii "1,Foo,a@example.com"] none)) csvImporter =
        ImportDomainData reverseOrder (rawFileSystem (csvFiles [headerLine] none))
          csvImporter ∧
      rawOutcome insertionOrder (ascii "1,Foo,a@example.com") [] =
        .returned (some []) none :=
  ⟨by decide,
    C8_header_discarded_file insertionOrder reverseOrder _ _ csvImporter
      (ascii "1,Foo,a@example.com") headerLine [] none csvImporter_path_ne
      (csvFiles_path _ _) (csvFiles_path _ _) (by decide),
    by decide⟩

/-- C8, counterexample to the claim as stated: the file holding the header `id,name,email`
and the rows of scenario A succeeds, while the file that differs from it only in its first
line, a line of 64 KiB, returns the header read error `ErrTooLong`. -/
theorem C8_long_header_fails :
    rawOutcome insertionOrder headerLine scenarioA =
        .returned (some [⟨ascii "example.com", 2⟩, ⟨ascii "other.com", 1⟩]) none ∧
      rawOutcome insertionOrder longLine scenarioA =
        .returned none (some (.headerReadFailed csvPath errTooLong)) := by
  refine ⟨by decide, ?_⟩
  rw [rawOutcome_eq, streamOutcome_long_header insertionOrder csvPath longLine scenarioA none
    longLine_length]

/-- C15 (shard-merge equivalence, within the scanner's limit). For every header `h` and
data lines `xs`, `ys`, all shorter than `bufio.MaxScanTokenSize` (64 KiB) and read without
error: the pipeline succeeds on `(h, xs)` and on `(h, ys)`, and its result on `h` followed
by `xs ++ ys` is the merge of the two shard results, the counts of equal domains being added
as `uint64` values (the plain sums when there are fewer than `2^64` data lines in total) and
the merged entries sorted by domain. For lines of any length, the result on a permutation
`lines` of `xs ++ ys` is the result on `xs ++ ys`. All of this holds whatever map
enumeration orders the runs and the merge meet. -/
theorem C15_shard_merge_file (ord ord₁ ord₂ ord₃ : MapOrder) (h : GoString)
    (xs ys lines : List GoString) (hperm : lines.Perm (xs ++ ys)) :
    ((∀ seg ∈ h :: (xs ++ ys), seg.length < maxScanTokenSize) →
      ∃ dx dy,
        rawOutcome ord₁ h xs = .returned (some dx) none ∧
        rawOutcome ord₂ h ys = .returned (some dy) none ∧
        rawOutcome ord h (xs ++ ys) =
          .returned (some (mergeShards uint64Add ord₃ dx dy)) none ∧
        (xs.length + ys.length < uint64Size →
          mergeShards (fun x y => x + y) ord₃ dx dy = mergeShards uint64Add ord₃ dx dy)) ∧
      rawOutcome ord h lines = rawOutcome ord h (xs ++ ys) := by
  refine ⟨fun hshort => ?_, ?_⟩
  · have hx : ∀ seg ∈ h :: xs, seg.length < maxScanTokenSize := by
      intro seg hs
      apply hshort
      rcases List.mem_cons.1 hs with h1 | h1
      · rw [h1]; exact List.mem_cons_self _ _
      · exact List.mem_cons_of_mem _ (List.mem_append_left _ h1)
    have hy : ∀ seg ∈ h :: ys, seg.length < maxScanTokenSize := by
      intro seg hs
      apply hshort
      rcases List.mem_cons.1 hs with h1 | h1
      · rw [h1]; exact List.mem_cons_self _ _
      · exact List.mem_cons_of_mem _ (List.mem_append_right _ h1)
    have hlx : (xs.map dropCR).length = xs.length := List.length_map _ _
    have hly : (ys.map dropCR).length = ys.length := List.length_map _ _
    refine ⟨finalize ord₁ (scannedCounts (xs.map dropCR)),
      finalize ord₂ (scannedCounts (ys.map dropCR)),
      rawOutcome_short _ _ _ hx, rawOutcome_short _ _ _ hy, ?_, fun hlen => ?_⟩
    · rw [rawOutcome_short _ _ _ hshort, List.map_append,
        merge_eq_sequential uint64Add ord ord₁ ord₂ ord₃ (xs.map dropCR) (ys.map dropCR)
          (fun x y _ _ => uint64Add_merges x y)]
    · rw [merge_eq_sequential uint64Add ord ord₁ ord₂ ord₃ (xs.map dropCR) (ys.map dropCR)
        (fun x y _ _ => uint64Add_merges x y)]
      apply merge_eq_sequential (fun x y => x + y) ord ord₁ ord₂ ord₃
      intro x y hx' hy'
      have hx'' : x < uint64Size := by omega
      have hy'' : y < uint64Size := by omega
      have hxy : x + y < uint64Size := by omega
      rw [Nat.mod_eq_of_lt hx'', Nat.mod_eq_of_lt hy'', Nat.mod_eq_of_lt hxy]
      exact ⟨Nat.zero_add x, rfl⟩
  · rw [rawOutcome_eq, rawOutcome_eq]
    exact streamOutcome_perm ord csvPath h lines (xs ++ ys) none hperm

/-- C15 at a concrete input: the rows of scenario A as one shard and its first row again as
a second shard give `[("example.com", 2), ("other.com", 1)]` and `[("example.com", 1)]`,
which merge to `[("example.com", 3), ("other.com", 1)]`, the sequential result; feeding the
second shard first gives the same result. -/
theorem C15_scenario_shards_file :
    rawOutcome insertionOrder headerLine scenarioA =
        .returned (some [⟨ascii "example.com", 2⟩, ⟨ascii "other.com", 1⟩]) none ∧
      rawOutcome insertionOrder headerLine (scenarioA.take 1) =
        .returned (some [⟨ascii "example.com", 1⟩]) none ∧
      mergeShards uint64Add reverseOrder
          [⟨ascii "example.com", 2⟩, ⟨ascii "other.com", 1⟩] [⟨ascii "example.com", 1⟩] =
        [⟨ascii "example.com", 3⟩, ⟨ascii "other.com", 1⟩] ∧
      rawOutcome insertionOrder headerLine (scenarioA ++ scenarioA.take 1) =
        .returned (some [⟨ascii "example.com", 3⟩, ⟨ascii "other.com", 1⟩]) none ∧
      rawOutcome insertionOrder headerLine (scenarioA.take 1 ++ scenarioA) =
        rawOutcome insertionOrder headerLine (scenarioA ++ scenarioA.take 1) := by
  have h := C15_shard_merge_file insertionOrder insertionOrder insertionOrder reverseOrder
    headerLine scenarioA (scenarioA.take 1) (scenarioA.take 1 ++ scenarioA)
    List.perm_append_comm
  obtain ⟨dx, dy, h1, h2, h3, _⟩ := h.1 (by decide)
  have e1 : rawOutcome insertionOrder headerLine scenarioA =
      .returned (some [⟨ascii "example.com", 2⟩, ⟨ascii "other.com", 1⟩]) none := by decide
  have e2 : rawOutcome insertionOrder headerLine (scenarioA.take 1) =
      .returned (some [⟨ascii "example.com", 1⟩]) none := by decide
  rw [e1] at h1
  rw [e2] at h2
  have hdx : dx = [⟨ascii "example.com", 2⟩, ⟨ascii "other.com", 1⟩] := by
    injection h1 with h _
    injection h with h
    exact h.symm
  have hdy : dy = [⟨ascii "example.com", 1⟩] := by
    injection h2 with h _
    injection h with h
    exact h.symm
  subst hdx
  subst hdy
  have e3 : mergeShards uint64Add reverseOrder
      [⟨ascii "example.com", 2⟩, ⟨ascii "other.com", 1⟩] [⟨ascii "example.com", 1⟩] =
        [⟨ascii "example.com", 3⟩, ⟨ascii "other.com", 1⟩] := by decide
  rw [e3] at h3
  exact ⟨e1, e2, e3, h3, h.2⟩

/-- C15, counterexample to the claim as stated: with the rows of scenario A as the first
shard and a line of 64 KiB as the second, the first shard run returns a sequence, but the
second shard run and the sequential run return no sequence: the scanner stops with
`ErrTooLong` and the call returns an error. -/
theorem C15_long_line_shard_fails :
    rawOutcome insertionOrder headerLine scenarioA =
        .returned (some [⟨ascii "example.com", 2⟩, ⟨ascii "other.com", 1⟩]) none ∧
      rawOutcome insertionOrder headerLine [longLine] =
        .returned none (some (.readFailed csvPath errTooLong)) ∧
      rawOutcome insertionOrder headerLine (scenarioA ++ [longLine]) =
        .returned none (some (.readFailed csvPath errTooLong)) := by
  refine ⟨by decide, ?_, ?_⟩
  · exact rawOutcome_long insertionOrder headerLine longLine [] [] (by decide) longLine_length
  · exact rawOutcome_long insertionOrder headerLine longLine scenarioA [] (by decide)
      longLine_length

end CustomerImporter
